import Mathlib

/-!
Verification development for the CMSnet cloud control-plane simulator
(mininetcetera): a shallow embedding of the VM/hypervisor lifecycle state
machine (cmsnet/cms_net.py, cmsnet/cms_comp.py), the placement policy
engine (the `_vm_dist_*` handlers of CMSnet), and the topology rewiring
engine (`CMSnet._moveLink` / `CMSnet._removeLink`, mirrored by
`MininetPatch.moveLink` / `removeLink` in cmsnet/mininet_net_patch.py).

Python's mutable object graph is modelled by explicit state passing:
components are keyed by their unique names, raised exceptions are an
`Option PyErr` result component carrying the state at the raise point
(mutations performed before a raise persist, as in Python), and the
side effects of interest (controller notifications, VM hook scripts,
detach/attach capability calls) are recorded in event logs.
-/

namespace CMSnetModel

/-- Runtime errors a modelled Python operation can raise. -/
inductive PyErr
  | assertionError
  | attributeError
  | keyError
  | indexError
  | valueError
deriving DecidableEq

/-- Location of a VM's single network endpoint: on the placeholder dummy
(sink) node or on a hypervisor's switch node.  Abstraction of the link
structure maintained by `CMSnet._moveLink` for the lifecycle layer. -/
inductive Loc
  | onDummy
  | onHV (h : String)
deriving DecidableEq

/-- `VirtualMachine` (cms_comp.py, class VirtualMachine): name, script,
tenant id, `_hv` (weak reference to the running hypervisor, by name),
`_is_paused`, the endpoint location, and `vm_script_pid`. -/
structure VMSt where
  name : String
  vm_script : Option String
  tenant_id : Nat
  hv : Option String
  is_paused_flag : Bool
  loc : Loc
  vm_script_pid : Option Nat
deriving DecidableEq

/-- `Hypervisor` (cms_comp.py, class Hypervisor): name, `_enabled`,
`_vm_dist_limit` (per-instance capacity limit, `None` if unset), and the
`nameToVMs` cache of hosted VMs (modelled as the set of their names;
the mapped-to object is determined by the name, names being unique). -/
structure HVSt where
  name : String
  enabled : Bool
  vm_dist_limit : Option Nat
  nameToVMs : List String
deriving DecidableEq

/-- A CMS message to the controller (CMSnet.send_msg_to_controller). -/
structure Msg where
  cmd : String
  msg_level : String
  host : String
  new_hv : Option String
deriving DecidableEq

/-- `CMSnet` state (cms_net.py, class CMSnet): registry (`VMs`, `HVs`,
`nameToComp` key set), distribution mode state, message level, `last_HV`,
plus a seed deciding `random.choice` outcomes and the two event logs
(controller messages attempted, VM hook scripts run). -/
structure CMS where
  VMs : List VMSt
  HVs : List HVSt
  nameToComp : List String
  vm_dist_mode : String
  vm_dist_limit : Nat
  msg_level : String
  last_HV : Option String
  randSeed : Nat
  msgs : List Msg
  scripts : List (String × String)
deriving DecidableEq

/-- `VirtualMachine.hv_name`: the running hypervisor's name, `None` when
inactive (the model keys hypervisors by name already). -/
def VMSt.hv_name (vm : VMSt) : Option String := vm.hv

/-- `VirtualMachine.is_running`: `self.hv_name is not None`. -/
def VMSt.is_running (vm : VMSt) : Bool := vm.hv_name.isSome

/-- `VirtualMachine.is_paused`: `self.is_running() and self._is_paused`. -/
def VMSt.is_paused (vm : VMSt) : Bool := vm.is_running && vm.is_paused_flag

/-- `Hypervisor.is_enabled`: returns `self._enabled`. -/
def HVSt.is_enabled (hv : HVSt) : Bool := hv.enabled

def CMS.findVM (s : CMS) (n : String) : Option VMSt :=
  s.VMs.find? (fun vm => vm.name == n)

def CMS.findHV (s : CMS) (n : String) : Option HVSt :=
  s.HVs.find? (fun hv => hv.name == n)

/-- `vm in self.VMs` (object membership; names are unique). -/
def CMS.memVM (s : CMS) (n : String) : Bool := (s.findVM n).isSome

/-- `hv in self.HVs` (object membership; names are unique). -/
def CMS.memHV (s : CMS) (n : String) : Bool := (s.findHV n).isSome

/-- In-place mutation of the unique VM named `n`. -/
def CMS.updVM (s : CMS) (n : String) (f : VMSt → VMSt) : CMS :=
  { s with VMs := s.VMs.map (fun vm => if vm.name = n then f vm else vm) }

/-- In-place mutation of the unique hypervisor named `n`. -/
def CMS.updHV (s : CMS) (n : String) (f : HVSt → HVSt) : CMS :=
  { s with HVs := s.HVs.map (fun hv => if hv.name = n then f hv else hv) }

/-- `CMSnet.isHVFull` (cms_net.py lines 456-460):
`limit = hv.vm_dist_limit if hv.vm_dist_limit else self.vm_dist_limit`
(Python truthiness: `None` and `0` both fall back to the network-wide
limit), then `len(hv.nameToVMs) >= limit`. -/
def CMS.isHVFull (s : CMS) (hv : HVSt) : Bool :=
  let limit : Nat :=
    match hv.vm_dist_limit with
    | some l => if l = 0 then s.vm_dist_limit else l
    | none => s.vm_dist_limit
  decide (hv.nameToVMs.length ≥ limit)

/-- Python `max(xs, key=lambda hv: len(hv.nameToVMs))`: fold keeping the
current maximum, replacing it only on a strictly greater count, so the
first-encountered maximum wins (as CPython's `max` does). -/
def maxByNumVMs (x : HVSt) (l : List HVSt) : HVSt :=
  l.foldl (fun best h =>
    if best.nameToVMs.length < h.nameToVMs.length then h else best) x

/-- Python `min(xs, key=lambda hv: len(hv.nameToVMs))`: first-encountered
minimum wins. -/
def minByNumVMs (x : HVSt) (l : List HVSt) : HVSt :=
  l.foldl (fun best h =>
    if h.nameToVMs.length < best.nameToVMs.length then h else best) x

/-- `random.choice`: the state's seed picks the index.  `none` signals the
`IndexError` that `random.choice` raises on an empty sequence. -/
def randChoice {α : Type} (seed : Nat) (l : List α) : Option α :=
  l.get? (seed % l.length)

/-- `CMSnet._vm_dist_random`: `random.choice(self.HVs)`. -/
def vm_dist_random (s : CMS) : Except PyErr (Option String) :=
  match randChoice s.randSeed s.HVs with
  | none => .error .indexError
  | some hv => .ok (some hv.name)

/-- `CMSnet._vm_dist_sparse`: `min(self.HVs, key=...)`; `min` on an empty
list raises `ValueError` (unreachable: the caller checks `len(HVs)`). -/
def vm_dist_sparse (s : CMS) : Except PyErr (Option String) :=
  match s.HVs with
  | [] => .error .valueError
  | x :: xs => .ok (some (minByNumVMs x xs).name)

/-- `CMSnet._vm_dist_packed` (cms_net.py lines 488-497): filter out full
hypervisors with `isHVFull`; if none remain, log and return `None`; else
return `max` by hosted-VM count. -/
def vm_dist_packed (s : CMS) : Except PyErr (Option String) :=
  match s.HVs.filter (fun hv => !(s.isHVFull hv)) with
  | [] => .ok none
  | x :: xs => .ok (some (maxByNumVMs x xs).name)

/-- `CMSnet._vm_dist_same`: `None` (with an error log) if no `last_HV`,
else `last_HV`. -/
def vm_dist_same (s : CMS) : Except PyErr (Option String) :=
  match s.last_HV with
  | none => .ok none
  | some h => .ok (some h)

/-- `CMSnet._vm_dist_different`: `random.choice` over the hypervisors
other than `last_HV`; raises `IndexError` when that list is empty. -/
def vm_dist_different (s : CMS) : Except PyErr (Option String) :=
  match s.last_HV with
  | none => .ok none
  | some l =>
    match randChoice s.randSeed (s.HVs.filter (fun hv => !(hv.name == l))) with
    | none => .error .indexError
    | some hv => .ok (some hv.name)

/-- `CMSnet._vm_dist_next`: `self.HVs.index(self.last_HV)` (a missing
element raises `ValueError`), then the element at `(i+1) % len`. -/
def vm_dist_next (s : CMS) : Except PyErr (Option String) :=
  match s.last_HV with
  | none => .ok none
  | some l =>
    match s.HVs.findIdx? (fun hv => hv.name == l) with
    | none => .error .valueError
    | some i =>
      match s.HVs.get? ((i + 1) % s.HVs.length) with
      | none => .error .indexError
      | some hv => .ok (some hv.name)

/-- `CMSnet._vm_dist_previous`: like `_vm_dist_next` with `(i-1) % len`
(Python's floor modulo, nonnegative for a positive divisor). -/
def vm_dist_previous (s : CMS) : Except PyErr (Option String) :=
  match s.last_HV with
  | none => .ok none
  | some l =>
    match s.HVs.findIdx? (fun hv => hv.name == l) with
    | none => .error .valueError
    | some i =>
      match s.HVs.get? ((((i : Int) - 1) % (s.HVs.length : Int)).toNat) with
      | none => .error .indexError
      | some hv => .ok (some hv.name)

/-- `getattr(self, "_vm_dist_" + self.vm_dist_mode, None)`: dynamic
handler lookup by mode string; an unknown mode yields no handler. -/
def vm_dist_handler (mode : String) :
    Option (CMS → Except PyErr (Option String)) :=
  match mode with
  | "random" => some vm_dist_random
  | "sparse" => some vm_dist_sparse
  | "packed" => some vm_dist_packed
  | "same" => some vm_dist_same
  | "different" => some vm_dist_different
  | "next" => some vm_dist_next
  | "previous" => some vm_dist_previous
  | _ => none

/-- `CMSnet._getNextDefaultHV` (cms_net.py lines 442-454): `None` (with
an error log) when no hypervisor exists or the mode is invalid, else the
chosen handler's result. -/
def getNextDefaultHV (s : CMS) : Except PyErr (Option String) :=
  if s.HVs.length = 0 then .ok none
  else
    match vm_dist_handler s.vm_dist_mode with
    | none => .ok none
    | some f => f s

/-- `CMSnet.send_msg_to_controller` (cms_net.py lines 356-369): builds
`{CHANNEL: "CMS", cmd, msg_level, host: vm.name, new_hv: vm.hv_name}` and
sends it when a controller socket is open.  The log records the message
content (failure to send is swallowed in the source). -/
def send_msg_to_controller (s : CMS) (cmd_type : String) (vmName : String) :
    CMS :=
  match s.findVM vmName with
  | none => s
  | some vm =>
    { s with msgs := s.msgs ++
        [{ cmd := cmd_type, msg_level := s.msg_level,
           host := vm.name, new_hv := vm.hv_name }] }

/-- Lifecycle-layer effect of `CMSnet._moveLink(vm.node, hv.node)`: the
VM's endpoint ends up on the hypervisor's node (the already-connected
case warns and leaves it there, same resulting location). -/
def moveLinkL (s : CMS) (vmName hvName : String) : CMS :=
  s.updVM vmName (fun vm => { vm with loc := Loc.onHV hvName })

/-- Lifecycle-layer effect of `CMSnet._removeLink(vm.node)`: the VM's
endpoint ends up on the dummy (already-on-dummy warns, same location). -/
def removeLinkL (s : CMS) (vmName : String) : CMS :=
  s.updVM vmName (fun vm => { vm with loc := Loc.onDummy })

/-- `VirtualMachine.run_vm_script`: returns at once when the VM has no
`vm_script`; otherwise runs the named hook (logged as an event). -/
def run_vm_script (s : CMS) (vmName : String) (script_type : String) : CMS :=
  match s.findVM vmName with
  | none => s
  | some vm =>
    match vm.vm_script with
    | none => s
    | some _ => { s with scripts := s.scripts ++ [(vmName, script_type)] }

/-- Python dict key insertion for the `nameToVMs` name set: adding an
already-present key leaves the key set unchanged. -/
def insertName (n : String) (l : List String) : List String :=
  if n ∈ l then l else n :: l

/-- The `VirtualMachine.hv` setter (cms_comp.py lines 395-405):
`del` the VM's name from the previous hypervisor's `nameToVMs` (a `del`
on a missing key raises `KeyError`), set `_hv`, insert into the new
hypervisor's `nameToVMs`, and assert that a non-`None` hv implies
`is_running()` and a `None` hv implies not (both hold by construction,
`is_running` being defined from `hv_name`). -/
def setHV (s : CMS) (vmName : String) (hvOpt : Option String) :
    CMS × Option PyErr :=
  match s.findVM vmName with
  | none => (s, some .keyError)
  | some vm =>
    let step1 : Except PyErr CMS :=
      match vm.hv with
      | none => .ok s
      | some oldN =>
        match s.findHV oldN with
        | none => .error .keyError
        | some oldHv =>
          if vm.name ∈ oldHv.nameToVMs then
            .ok (s.updHV oldN (fun h =>
              { h with nameToVMs :=
                  h.nameToVMs.filter (fun m => decide (m ≠ vm.name)) }))
          else .error .keyError
    match step1 with
    | .error e => (s, some e)
    | .ok s1 =>
      let s2 := s1.updVM vmName (fun v => { v with hv := hvOpt })
      match hvOpt with
      | some newN =>
        match s2.findHV newN with
        | none => (s2, some .attributeError)
        | some _ =>
          (s2.updHV newN (fun h =>
            { h with nameToVMs := insertName vm.name h.nameToVMs }), none)
      | none => (s2, none)

/-- The `VirtualMachine.name` setter (cms_comp.py lines 249-255): rename
the node, then when `_hv` is set, `del` the old name from its
`nameToVMs` and insert the new name. -/
def renameVM (s : CMS) (vmName newName : String) : CMS × Option PyErr :=
  match s.findVM vmName with
  | none => (s, some .keyError)
  | some vm =>
    let s1 := s.updVM vmName (fun v => { v with name := newName })
    match vm.hv with
    | none => (s1, none)
    | some hvN =>
      match s1.findHV hvN with
      | none => (s1, some .attributeError)
      | some h =>
        if vmName ∈ h.nameToVMs then
          let renamed : HVSt → HVSt := fun hh =>
            { hh with nameToVMs :=
                insertName newName (hh.nameToVMs.filter (fun m => decide (m ≠ vmName))) }
          (s1.updHV hvN renamed, none)
        else (s1, some .keyError)

/-- `VirtualMachine.moveTo` (cms_comp.py lines 570-575): assert running,
target non-`None` and enabled; then `self.hv = hv`. -/
def moveTo (s : CMS) (vmName hvName : String) : CMS × Option PyErr :=
  match s.findVM vmName with
  | none => (s, some .keyError)
  | some vm =>
    if !vm.is_running then (s, some .assertionError)
    else
      match s.findHV hvName with
      | none => (s, some .assertionError)
      | some h =>
        if !h.is_enabled then (s, some .assertionError)
        else setHV s vmName (some hvName)

/-- `VirtualMachine.stop` (cms_comp.py lines 593-600): assert running;
`self.hv = None`; run the stop hook; kill the script process when
`vm_script_pid` is truthy and clear it. -/
def vmStop (s : CMS) (vmName : String) : CMS × Option PyErr :=
  match s.findVM vmName with
  | none => (s, some .keyError)
  | some vm =>
    if !vm.is_running then (s, some .assertionError)
    else
      match setHV s vmName none with
      | (s1, some e) => (s1, some e)
      | (s1, none) =>
        let s2 := run_vm_script s1 vmName "stop"
        let s3 :=
          match (s2.findVM vmName).bind (fun v => v.vm_script_pid) with
          | some p =>
            if p = 0 then s2
            else s2.updVM vmName (fun v => { v with vm_script_pid := none })
          | none => s2
        (s3, none)

/-- `CMSnet.launchVM` (cms_net.py lines 610-630): resolve a default
hypervisor when none is given (returning silently when resolution yields
`None`), assert the preconditions, move the endpoint onto the
hypervisor's node, then call `vm.launch(hv)` — which raises
`AttributeError`, `VirtualMachine` defining `launchOn` but no `launch`
method, so `self.last_HV = hv` and the `instantiated` notification are
never reached. -/
def launchVM (s : CMS) (vmName : String) (hvIn : Option String) :
    CMS × Option PyErr :=
  let hvRes : Except PyErr (Option String) :=
    match hvIn with
    | some h => .ok (some h)
    | none => getNextDefaultHV s
  match hvRes with
  | .error e => (s, some e)
  | .ok none => (s, none)
  | .ok (some h) =>
    match s.findVM vmName with
    | none => (s, some .assertionError)
    | some vm =>
      match s.findHV h with
      | none => (s, some .assertionError)
      | some hv =>
        if vm.is_running then (s, some .assertionError)
        else if !hv.is_enabled then (s, some .assertionError)
        else (moveLinkL s vmName h, some .attributeError)

/-- `CMSnet.migrateVM` (cms_net.py lines 632-646): `hv` is a required
argument at this layer and `assert hv in self.HVs` fails when the API
layer (cms_api.py `CMSAPI.migrateVM`, default `hv=None`) passes `None`;
with a valid target: move the endpoint, `vm.moveTo(hv)`, and notify the
controller with `migrated`. -/
def migrateVM (s : CMS) (vmName : String) (hvIn : Option String) :
    CMS × Option PyErr :=
  match s.findVM vmName with
  | none => (s, some .assertionError)
  | some vm =>
    match hvIn with
    | none => (s, some .assertionError)
    | some h =>
      match s.findHV h with
      | none => (s, some .assertionError)
      | some hv =>
        if !vm.is_running then (s, some .assertionError)
        else if !hv.is_enabled then (s, some .assertionError)
        else
          let s1 := moveLinkL s vmName h
          match moveTo s1 vmName h with
          | (s2, some e) => (s2, some e)
          | (s2, none) => (send_msg_to_controller s2 "migrated" vmName, none)

/-- `CMSnet.pauseVM` (cms_net.py lines 698-708): assert the VM is
registered and running, then `self.not_implemented()` — which only
prints "NOT IMPLEMENTED YET."; no endpoint move, no `vm.pause()`, no
state change. -/
def pauseVM (s : CMS) (vmName : String) : CMS × Option PyErr :=
  match s.findVM vmName with
  | none => (s, some .assertionError)
  | some vm =>
    if !vm.is_running then (s, some .assertionError)
    else (s, none)

/-- `CMSnet.stopVM` (cms_net.py lines 648-659): assert registered and
running; `vm.stop()`; `self._removeLink(vm.node)`; notify `destroyed`. -/
def stopVM (s : CMS) (vmName : String) : CMS × Option PyErr :=
  match s.findVM vmName with
  | none => (s, some .assertionError)
  | some vm =>
    if !vm.is_running then (s, some .assertionError)
    else
      match vmStop s vmName with
      | (s1, some e) => (s1, some e)
      | (s1, none) =>
        let s2 := removeLinkL s1 vmName
        (send_msg_to_controller s2 "destroyed" vmName, none)

/-- `CMSnet.deleteVM` (cms_net.py lines 661-679): assert registered;
stop the VM first if running; then call `self.stopVM(vm)` again
unconditionally — whose `assert vm.is_running()` now always fails, so
the removal from `VMs` and `nameToComp` below it is never reached. -/
def deleteVM (s : CMS) (vmName : String) : CMS × Option PyErr :=
  match s.findVM vmName with
  | none => (s, some .assertionError)
  | some vm =>
    let first : CMS × Option PyErr :=
      if vm.is_running then stopVM s vmName else (s, none)
    match first with
    | (s1, some e) => (s1, some e)
    | (s1, none) =>
      match stopVM s1 vmName with
      | (s2, some e) => (s2, some e)
      | (s2, none) =>
        ({ s2 with
            VMs := s2.VMs.filter (fun v => decide (v.name ≠ vmName)),
            nameToComp := s2.nameToComp.filter (fun n => decide (n ≠ vmName)) },
         none)

/-- `CMSnet.disableHV` (cms_net.py lines 818-828): assert registered and
enabled; `hv.disable()` (cms_comp.py lines 717-721: assert enabled, set
`_enabled = False`); then `self.not_implemented()` — no eviction of the
hosted VMs takes place. -/
def disableHV (s : CMS) (hvName : String) : CMS × Option PyErr :=
  match s.findHV hvName with
  | none => (s, some .assertionError)
  | some hv =>
    if !hv.is_enabled then (s, some .assertionError)
    else (s.updHV hvName (fun h => { h with enabled := false }), none)

/-!
## Topology rewiring layer

Detailed model of `CMSnet._moveLink` / `_removeLink` (cms_net.py lines
1002-1113) and their mirror `MininetPatch.moveLink` / `removeLink`
(mininet_net_patch.py lines 340-452): per-node port/interface/name
tables, interface objects with a link peer, and the detach/attach
capability probing (`hasattr(node, 'detach')`).
-/

/-- Node species: `Host` (VM side), `Switch` (hypervisor/fabric) or
`Dummy` (the sink).  `isinstance` checks dispatch on this. -/
inductive NKind
  | host
  | switch
  | dummy
deriving DecidableEq

/-- A Mininet node's bookkeeping state: `intfs` (port number to
interface), `ports` (interface to port number) and `nameToIntf`
(interface name to interface), interfaces referenced by id; `portBase`
and the dynamically probed detach/attach capabilities. -/
structure NodeSt where
  name : String
  kind : NKind
  hasDetach : Bool
  hasAttach : Bool
  portBase : Nat
  intfs : List (Nat × Nat)
  ports : List (Nat × Nat)
  nameToIntf : List (String × Nat)
deriving DecidableEq

/-- An interface object: identity, current name, owning node and the
link's other interface (`intf.link` pairing the two ends). -/
structure IntfSt where
  iid : Nat
  name : String
  node : String
  peer : Option Nat
deriving DecidableEq

/-- Observable side effects of the rewiring engine, in order. -/
inductive REvent
  | warnedConnected
  | warnedRemoved (intf_name : String)
  | detached (node : String) (intf : Nat)
  | removedFrom (node : String) (intf : Nat)
  | insertedInto (node : String) (intf : Nat) (port : Nat)
  | movedIntf (intf_name : String) (node : String)
  | attached (node : String) (intf : Nat)
deriving DecidableEq

/-- The fabric state: all nodes, all interfaces, and the event log. -/
structure Net where
  nodes : List NodeSt
  ifs : List IntfSt
  events : List REvent
deriving DecidableEq

/-- Python `del d[k]` on a dict, the key present (the tables keep unique
keys): drop the entry with key `k`. -/
def adel {κ ν : Type} [DecidableEq κ] (l : List (κ × ν)) (k : κ) :
    List (κ × ν) :=
  l.filter (fun p => decide (p.1 ≠ k))

/-- Python `d[k] = v` on a dict: replace or add the binding for `k`. -/
def aset {κ ν : Type} [DecidableEq κ] (l : List (κ × ν)) (k : κ) (v : ν) :
    List (κ × ν) :=
  (k, v) :: adel l k

def findNode (net : Net) (n : String) : Option NodeSt :=
  net.nodes.find? (fun nd => nd.name == n)

def findIntf (net : Net) (k : Nat) : Option IntfSt :=
  net.ifs.find? (fun i => i.iid == k)

/-- In-place mutation of the unique node named `n`. -/
def updNodeN (net : Net) (n : String) (f : NodeSt → NodeSt) : Net :=
  { net with nodes := net.nodes.map (fun nd => if nd.name = n then f nd else nd) }

/-- In-place mutation of the unique interface with id `k`. -/
def updIntfN (net : Net) (k : Nat) (f : IntfSt → IntfSt) : Net :=
  { net with ifs := net.ifs.map (fun i => if i.iid = k then f i else i) }

/-- `Node.newPort` (mininet, external fabric collaborator):
`max(self.ports.values()) + 1` when ports exist, else `portBase`. -/
def newPort (nd : NodeSt) : Nat :=
  match nd.ports.map Prod.snd with
  | [] => nd.portBase
  | p :: ps => (ps.foldl Nat.max p) + 1

/-- `Node.defaultIntf` (mininet): the interface at the minimal allocated
port. -/
def defaultIntfId (nd : NodeSt) : Option Nat :=
  match nd.intfs.map Prod.fst with
  | [] => none
  | p :: ps => nd.intfs.lookup (ps.foldl Nat.min p)

/-- `CMSnet._moveLink(node1, node2, intf1_name, intf2_name)` (cms_net.py
lines 1002-1071; `MininetPatch.moveLink`, mininet_net_patch.py lines
340-410).  Part 0: assert `node1` a `Host`, `node2` a `Switch` or
`Dummy`, a given `intf1_name` known on `node1`, a given `intf2_name` not
yet on `node2`.  Part 1: resolve `intf1` (default interface when no name
given), its link and its far end on `node1_other`; warn and no-op when
already connected to `node2` under the requested name.  Part 1.5: invoke
`detach` on the source node when it has that capability.  Part 2: delete
the far-end interface from the source's three tables, allocate a fresh
port with `newPort` on the destination, rename the interface for its new
owner (`"<node2>-eth<port>"` when no name given), and insert it into the
destination's three tables.  Part 3/3.5: move the interface (opaque OS
step) and invoke `attach` on the destination when it has the
capability. -/
def moveLink (net : Net) (n1 n2 : String)
    (intf1_name intf2_name : Option String) : Net × Option PyErr :=
  match findNode net n1, findNode net n2 with
  | some nd1, some nd2 =>
    if !(nd1.kind == NKind.host) then (net, some .assertionError)
    else if !(nd2.kind == NKind.switch || nd2.kind == NKind.dummy) then
      (net, some .assertionError)
    else if !(match intf1_name with
              | none => true
              | some nm => (nd1.nameToIntf.lookup nm).isSome) then
      (net, some .assertionError)
    else if !(match intf2_name with
              | none => true
              | some nm => (nd2.nameToIntf.lookup nm).isNone) then
      (net, some .assertionError)
    else
      match (match intf1_name with
             | none => defaultIntfId nd1
             | some nm => nd1.nameToIntf.lookup nm) with
      | none => (net, some .assertionError)
      | some k1 =>
        match findIntf net k1 with
        | none => (net, some .keyError)
        | some i1 =>
          match i1.peer with
          | none => (net, some .assertionError)
          | some k2 =>
            if !(i1.node == n1) then (net, some .assertionError)
            else
              match findIntf net k2 with
              | none => (net, some .keyError)
              | some i2 =>
                let nsrc := i2.node
                match findNode net nsrc with
                | none => (net, some .keyError)
                | some srcNd =>
                  match srcNd.ports.lookup k2 with
                  | none => (net, some .keyError)
                  | some p_old =>
                    if nsrc == n2 &&
                       (intf2_name == none || intf2_name == some i2.name) then
                      ({ net with events := net.events ++ [REvent.warnedConnected] },
                       none)
                    else
                      let ev1 : List REvent :=
                        if srcNd.hasDetach then [REvent.detached nsrc k2] else []
                      let net1 := updNodeN net nsrc (fun nd =>
                        { nd with intfs := adel nd.intfs p_old,
                                  ports := adel nd.ports k2,
                                  nameToIntf := adel nd.nameToIntf i2.name })
                      match findNode net1 n2 with
                      | none => (net1, some .keyError)
                      | some nd2x =>
                        let p2 := newPort nd2x
                        let newName :=
                          match intf2_name with
                          | some nm => nm
                          | none => n2 ++ "-eth" ++ toString p2
                        let net2 := updIntfN net1 k2 (fun i =>
                          { i with name := newName, node := n2 })
                        let net3 := updNodeN net2 n2 (fun nd =>
                          { nd with intfs := aset nd.intfs p2 k2,
                                    ports := aset nd.ports k2 p2,
                                    nameToIntf := aset nd.nameToIntf newName k2 })
                        let ev2 : List REvent :=
                          if nd2x.hasAttach then [REvent.attached n2 k2] else []
                        ({ net3 with events := net3.events ++ ev1 ++
                            [REvent.removedFrom nsrc k2,
                             REvent.insertedInto n2 k2 p2,
                             REvent.movedIntf newName n2] ++ ev2 },
                         none)
  | _, _ => (net, some .keyError)

/-- `CMSnet._removeLink(node, intf_name, remove_only_once)` (cms_net.py
lines 1073-1113; `MininetPatch.removeLink`).  Part 0: assert `node` a
`Host` and a given name known.  Part 1: fetch the node named "dummy"
(log and plain-return when absent), assert it is a `Dummy`.  Part 1.5:
resolve the interface.  Special case under `remove_only_once`: assert
the link exists and the interface is not itself on the dummy; when
either link end sits on the dummy, warn `already removed` and no-op.
Part 2: allocate a dummy port, name `"dummy-eth<port>"`, delegate to
`moveLink`. -/
def removeLink (net : Net) (n : String) (intf_name : Option String)
    (remove_only_once : Bool) : Net × Option PyErr :=
  match findNode net n with
  | none => (net, some .keyError)
  | some nd =>
    if !(nd.kind == NKind.host) then (net, some .assertionError)
    else if !(match intf_name with
              | none => true
              | some nm => (nd.nameToIntf.lookup nm).isSome) then
      (net, some .assertionError)
    else
      match findNode net "dummy" with
      | none => (net, none)
      | some dnd =>
        if !(dnd.kind == NKind.dummy) then (net, some .assertionError)
        else
          match (match intf_name with
                 | none => defaultIntfId nd
                 | some nm => nd.nameToIntf.lookup nm) with
          | none => (net, some .assertionError)
          | some k =>
            match findIntf net k with
            | none => (net, some .keyError)
            | some i =>
              let iname := match intf_name with
                           | some nm => nm
                           | none => i.name
              if remove_only_once then
                match i.peer with
                | none => (net, some .assertionError)
                | some k2 =>
                  if i.node == "dummy" then (net, some .assertionError)
                  else
                    match findIntf net k2 with
                    | none => (net, some .keyError)
                    | some i2 =>
                      if i.node == "dummy" || i2.node == "dummy" then
                        ({ net with events :=
                            net.events ++ [REvent.warnedRemoved iname] }, none)
                      else
                        let dummy_port := newPort dnd
                        let dummy_name := "dummy-eth" ++ toString dummy_port
                        moveLink net n "dummy" (some iname) (some dummy_name)
              else
                let dummy_port := newPort dnd
                let dummy_name := "dummy-eth" ++ toString dummy_port
                moveLink net n "dummy" (some iname) (some dummy_name)

/-!
## Spec-side definitions and concrete states
-/

/-- Modelled from the spec's wording (§4.3): `effective_limit(hv) =
hv.capacity_limit if set else distribution_limit`.  Compared against the
source's `CMSnet.isHVFull` truthiness test. -/
def effective_limit (s : CMS) (hv : HVSt) : Nat :=
  match hv.vm_dist_limit with
  | some l => l
  | none => s.vm_dist_limit

/-- Registry-cache consistency: a VM's name is in a hypervisor's
`nameToVMs` exactly when the VM's `hv` pointer names that hypervisor,
and every cached name belongs to a registered VM. -/
def RegInv (s : CMS) : Prop :=
  (∀ hv ∈ s.HVs, ∀ vm ∈ s.VMs, (vm.name ∈ hv.nameToVMs ↔ vm.hv = some hv.name)) ∧
  (∀ hv ∈ s.HVs, ∀ n ∈ hv.nameToVMs, ∃ vm, vm ∈ s.VMs ∧ vm.name = n)

/-- Component names are unique in the registry. -/
def NamesOK (s : CMS) : Prop :=
  (s.VMs.map VMSt.name).Nodup ∧ (s.HVs.map HVSt.name).Nodup

/-- A VM record for an inactive `v1` (endpoint parked on the dummy). -/
def v1Inactive : VMSt :=
  { name := "v1", vm_script := none, tenant_id := 1, hv := none,
    is_paused_flag := false, loc := Loc.onDummy, vm_script_pid := none }

/-- A VM record for `v1` running unpaused on `h1`. -/
def v1Running : VMSt :=
  { name := "v1", vm_script := none, tenant_id := 1, hv := some "h1",
    is_paused_flag := false, loc := Loc.onHV "h1", vm_script_pid := none }

/-- An enabled hypervisor `h1` hosting nothing. -/
def h1Empty : HVSt :=
  { name := "h1", enabled := true, vm_dist_limit := none, nameToVMs := [] }

/-- An enabled hypervisor `h1` hosting `v1`. -/
def h1WithV1 : HVSt :=
  { name := "h1", enabled := true, vm_dist_limit := none, nameToVMs := ["v1"] }

/-- Concrete network: one registered inactive VM, one enabled HV. -/
def sInactive : CMS :=
  { VMs := [v1Inactive], HVs := [h1Empty], nameToComp := ["v1", "h1"],
    vm_dist_mode := "random", vm_dist_limit := 10, msg_level := "all",
    last_HV := none, randSeed := 0, msgs := [], scripts := [] }

/-- Concrete network: `v1` running unpaused on `h1`. -/
def sRunning : CMS :=
  { VMs := [v1Running], HVs := [h1WithV1], nameToComp := ["v1", "h1"],
    vm_dist_mode := "random", vm_dist_limit := 10, msg_level := "all",
    last_HV := none, randSeed := 0, msgs := [], scripts := [] }

/-- Concrete packed-mode network whose only hypervisor is at its
effective capacity limit (network-wide limit 1, one hosted VM), plus an
inactive VM `v1` waiting to be launched. -/
def sPackedFull : CMS :=
  { VMs := [v1Inactive,
      { name := "v0", vm_script := none, tenant_id := 1, hv := some "h1",
        is_paused_flag := false, loc := Loc.onHV "h1", vm_script_pid := none }],
    HVs := [{ name := "h1", enabled := true, vm_dist_limit := none,
              nameToVMs := ["v0"] }],
    nameToComp := ["v1", "v0", "h1"],
    vm_dist_mode := "packed", vm_dist_limit := 1, msg_level := "all",
    last_HV := none, randSeed := 0, msgs := [], scripts := [] }

/-- Concrete packed-mode network with spare capacity: `h1` hosts one VM,
`h2` hosts none, network-wide limit 2. -/
def sPackedW : CMS :=
  { VMs := [v1Inactive,
      { name := "v0", vm_script := none, tenant_id := 1, hv := some "h1",
        is_paused_flag := false, loc := Loc.onHV "h1", vm_script_pid := none }],
    HVs := [{ name := "h1", enabled := true, vm_dist_limit := none,
              nameToVMs := ["v0"] },
            { name := "h2", enabled := true, vm_dist_limit := none,
              nameToVMs := [] }],
    nameToComp := ["v1", "v0", "h1", "h2"],
    vm_dist_mode := "packed", vm_dist_limit := 2, msg_level := "all",
    last_HV := none, randSeed := 0, msgs := [], scripts := [] }

/-- Canonical form of the VM-list effect of the `hv` setter: the unique
VM named `vmName` gets its pointer replaced. -/
def setHVCanonVMs (s : CMS) (vmName : String) (hvOpt : Option String) :
    List VMSt :=
  s.VMs.map (fun v => if v.name = vmName then { v with hv := hvOpt } else v)

/-- The hosted-VM cache of one hypervisor after the `hv` setter runs:
the VM's name is filtered out when this was the previous hypervisor
(`wOld`, the pointer before the assignment) and inserted when it is the
new one. -/
def cacheAfterSet (wOld : Option String) (vmName : String)
    (hvOpt : Option String) (h : HVSt) : List String :=
  if hvOpt = some h.name then
    insertName vmName
      (if wOld = some h.name then
        h.nameToVMs.filter (fun m => decide (m ≠ vmName))
      else h.nameToVMs)
  else
    (if wOld = some h.name then
      h.nameToVMs.filter (fun m => decide (m ≠ vmName))
    else h.nameToVMs)

/-- Canonical form of the HV-list effect of the `hv` setter. -/
def setHVCanonHVs (s : CMS) (wOld : Option String) (vmName : String)
    (hvOpt : Option String) : List HVSt :=
  s.HVs.map (fun h => { h with nameToVMs := cacheAfterSet wOld vmName hvOpt h })

/-- Canonical form of the VM-list effect of the name setter. -/
def renameCanonVMs (s : CMS) (vmName newName : String) : List VMSt :=
  s.VMs.map (fun v => if v.name = vmName then { v with name := newName } else v)

/-- The hosted-VM cache of one hypervisor after the name setter runs:
the hosting hypervisor's cache replaces the old name with the new. -/
def cacheAfterRename (wOld : Option String) (vmName newName : String)
    (h : HVSt) : List String :=
  if wOld = some h.name then
    insertName newName (h.nameToVMs.filter (fun m => decide (m ≠ vmName)))
  else h.nameToVMs

/-- Canonical form of the HV-list effect of the name setter. -/
def renameCanonHVs (s : CMS) (wOld : Option String) (vmName newName : String) :
    List HVSt :=
  s.HVs.map (fun h =>
    { h with nameToVMs := cacheAfterRename wOld vmName newName h })

/-- Concrete fabric: host `v1` whose single interface is linked to the
dummy's side interface (the VM is parked on the sink). -/
def vIntf : IntfSt :=
  { iid := 1, name := "v1-eth0", node := "v1", peer := some 2 }

def dIntf : IntfSt :=
  { iid := 2, name := "dummy-eth0", node := "dummy", peer := some 1 }

def vHost : NodeSt :=
  { name := "v1", kind := NKind.host, hasDetach := false, hasAttach := false,
    portBase := 0, intfs := [(0, 1)], ports := [(1, 0)],
    nameToIntf := [("v1-eth0", 1)] }

def dNode : NodeSt :=
  { name := "dummy", kind := NKind.dummy, hasDetach := false,
    hasAttach := false, portBase := 0, intfs := [(0, 2)], ports := [(2, 0)],
    nameToIntf := [("dummy-eth0", 2)] }

/-- A switch node `s1` with attach/detach capability and empty tables. -/
def sSwitch : NodeSt :=
  { name := "s1", kind := NKind.switch, hasDetach := true, hasAttach := true,
    portBase := 1, intfs := [], ports := [], nameToIntf := [] }

def netOnDummy : Net :=
  { nodes := [vHost, dNode, sSwitch], ifs := [vIntf, dIntf], events := [] }

/-!
## Helper lemmas
-/

theorem mem_insertName_self (n : String) (l : List String) :
    n ∈ insertName n l := by
  unfold insertName
  by_cases h : n ∈ l
  · rwa [if_pos h]
  · rw [if_neg h]
    exact List.mem_cons_self n l

theorem mem_insertName_iff {m n : String} (l : List String) (hmn : m ≠ n) :
    m ∈ insertName n l ↔ m ∈ l := by
  unfold insertName
  by_cases h : n ∈ l
  · rw [if_pos h]
  · rw [if_neg h, List.mem_cons]
    exact ⟨fun hc => hc.elim (fun he => absurd he hmn) id, Or.inr⟩

theorem not_mem_filter_ne_self (n : String) (l : List String) :
    n ∉ l.filter (fun m => decide (m ≠ n)) := by
  intro h
  have := (List.mem_filter.mp h).2
  simp at this

theorem mem_filter_ne_iff {m n : String} (l : List String) (hmn : m ≠ n) :
    m ∈ l.filter (fun k => decide (k ≠ n)) ↔ m ∈ l := by
  rw [List.mem_filter]
  simp [hmn]

theorem name_inj_VM {l : List VMSt} (h : (l.map VMSt.name).Nodup)
    {a b : VMSt} (ha : a ∈ l) (hb : b ∈ l) (hn : a.name = b.name) : a = b :=
  List.inj_on_of_nodup_map h ha hb hn

theorem findVM_props {s : CMS} {n : String} {vm : VMSt}
    (h : s.findVM n = some vm) : vm ∈ s.VMs ∧ vm.name = n := by
  unfold CMS.findVM at h
  refine ⟨List.mem_of_find?_eq_some h, ?_⟩
  have := List.find?_some h
  simpa using this

theorem findHV_props {s : CMS} {n : String} {hv : HVSt}
    (h : s.findHV n = some hv) : hv ∈ s.HVs ∧ hv.name = n := by
  unfold CMS.findHV at h
  refine ⟨List.mem_of_find?_eq_some h, ?_⟩
  have := List.find?_some h
  simpa using this

theorem findVM_isSome_of_mem {s : CMS} {vm : VMSt} (h : vm ∈ s.VMs) :
    (s.findVM vm.name).isSome := by
  unfold CMS.findVM
  rw [List.find?_isSome]
  exact ⟨vm, h, by simp⟩

theorem findHV_isSome_of_mem {s : CMS} {hv : HVSt} (h : hv ∈ s.HVs) :
    (s.findHV hv.name).isSome := by
  unfold CMS.findHV
  rw [List.find?_isSome]
  exact ⟨hv, h, by simp⟩

/-- `updHV` with a name-preserving mutation keeps every `findHV` lookup
resolvable. -/
theorem findHV_updHV_isSome (s : CMS) (n m : String) (f : HVSt → HVSt)
    (hf : ∀ h, (f h).name = h.name) :
    ((s.updHV n f).findHV m).isSome ↔ (s.findHV m).isSome := by
  unfold CMS.updHV CMS.findHV
  rw [List.find?_isSome, List.find?_isSome]
  constructor
  · rintro ⟨x, hx, hpx⟩
    rcases List.mem_map.mp hx with ⟨y, hy, rfl⟩
    refine ⟨y, hy, ?_⟩
    by_cases hc : y.name = n
    · rw [if_pos hc] at hpx
      rwa [hf y] at hpx
    · rwa [if_neg hc] at hpx
  · rintro ⟨y, hy, hpy⟩
    refine ⟨if y.name = n then f y else y, List.mem_map_of_mem _ hy, ?_⟩
    by_cases hc : y.name = n
    · rw [if_pos hc, hf y]
      exact hpy
    · rwa [if_neg hc]


theorem maxByNumVMs_cons (x y : HVSt) (ys : List HVSt) :
    maxByNumVMs x (y :: ys) =
      maxByNumVMs (if x.nameToVMs.length < y.nameToVMs.length then y else x) ys :=
  rfl

theorem maxByNumVMs_mem :
    ∀ (l : List HVSt) (x : HVSt), maxByNumVMs x l = x ∨ maxByNumVMs x l ∈ l
  | [], _ => Or.inl rfl
  | y :: ys, x => by
    rw [maxByNumVMs_cons]
    rcases maxByNumVMs_mem ys
        (if x.nameToVMs.length < y.nameToVMs.length then y else x) with h | h
    · by_cases hc : x.nameToVMs.length < y.nameToVMs.length
      · rw [if_pos hc] at h ⊢
        rw [h]
        exact Or.inr (List.mem_cons_self y ys)
      · rw [if_neg hc] at h ⊢
        exact Or.inl h
    · exact Or.inr (List.mem_cons_of_mem y h)

theorem maxByNumVMs_ge :
    ∀ (l : List HVSt) (x : HVSt),
      x.nameToVMs.length ≤ (maxByNumVMs x l).nameToVMs.length ∧
      ∀ h ∈ l, h.nameToVMs.length ≤ (maxByNumVMs x l).nameToVMs.length
  | [], x => ⟨le_refl _, by intro h hh; cases hh⟩
  | y :: ys, x => by
    rw [maxByNumVMs_cons]
    obtain ⟨h1, h2⟩ := maxByNumVMs_ge ys
        (if x.nameToVMs.length < y.nameToVMs.length then y else x)
    by_cases hc : x.nameToVMs.length < y.nameToVMs.length
    · rw [if_pos hc] at h1 h2
      rw [if_pos hc]
      refine ⟨le_trans (le_of_lt hc) h1, ?_⟩
      intro h hh
      rcases List.mem_cons.mp hh with rfl | hmem
      · exact h1
      · exact h2 h hmem
    · rw [if_neg hc] at h1 h2
      rw [if_neg hc]
      refine ⟨h1, ?_⟩
      intro h hh
      rcases List.mem_cons.mp hh with rfl | hmem
      · exact le_trans (le_of_not_lt hc) h1
      · exact h2 h hmem

/-- The source's truthiness-based `isHVFull` agrees with the spec's
effective-limit reading whenever no per-instance limit is literally `0`
(the data model allows only positive per-instance limits). -/
theorem isHVFull_iff (s : CMS) (hv : HVSt) (h0 : hv.vm_dist_limit ≠ some 0) :
    s.isHVFull hv = true ↔ effective_limit s hv ≤ hv.nameToVMs.length := by
  unfold CMS.isHVFull effective_limit
  cases hl : hv.vm_dist_limit with
  | none => simp [ge_iff_le]
  | some l =>
    have hne : l ≠ 0 := fun h => h0 (by rw [hl, h])
    simp [hne, ge_iff_le]

theorem mem_insertName_cases {m n : String} {l : List String}
    (h : m ∈ insertName n l) : m = n ∨ m ∈ l := by
  unfold insertName at h
  by_cases hc : n ∈ l
  · rw [if_pos hc] at h
    exact Or.inr h
  · rw [if_neg hc] at h
    exact List.mem_cons.mp h

theorem mem_cacheAfterSet_of_ne {m vmName : String} (wOld hvOpt : Option String)
    (h : HVSt) (hm : m ≠ vmName) :
    m ∈ cacheAfterSet wOld vmName hvOpt h ↔ m ∈ h.nameToVMs := by
  unfold cacheAfterSet
  by_cases hnew : hvOpt = some h.name
  · rw [if_pos hnew, mem_insertName_iff _ hm]
    by_cases holdc : wOld = some h.name
    · rw [if_pos holdc, mem_filter_ne_iff _ hm]
    · rw [if_neg holdc]
  · rw [if_neg hnew]
    by_cases holdc : wOld = some h.name
    · rw [if_pos holdc, mem_filter_ne_iff _ hm]
    · rw [if_neg holdc]

theorem self_mem_cacheAfterSet (vmName : String) (wOld hvOpt : Option String)
    (h : HVSt) :
    vmName ∈ cacheAfterSet wOld vmName hvOpt h ↔
      (hvOpt = some h.name ∨
        (wOld ≠ some h.name ∧ vmName ∈ h.nameToVMs)) := by
  unfold cacheAfterSet
  by_cases hnew : hvOpt = some h.name
  · rw [if_pos hnew]
    simp [hnew, mem_insertName_self]
  · rw [if_neg hnew]
    by_cases holdc : wOld = some h.name
    · rw [if_pos holdc]
      simp [hnew, holdc]
    · rw [if_neg holdc]
      simp [hnew, holdc]

theorem mem_cacheAfterSet_sub {m vmName : String} {wOld hvOpt : Option String}
    {h : HVSt} (hm : m ∈ cacheAfterSet wOld vmName hvOpt h) :
    m = vmName ∨ m ∈ h.nameToVMs := by
  by_cases heq : m = vmName
  · exact Or.inl heq
  · exact Or.inr ((mem_cacheAfterSet_of_ne wOld hvOpt h heq).mp hm)

theorem mem_cacheAfterRename_of_ne {m vmName newName : String}
    (wOld : Option String) (h : HVSt) (hm1 : m ≠ vmName) (hm2 : m ≠ newName) :
    m ∈ cacheAfterRename wOld vmName newName h ↔ m ∈ h.nameToVMs := by
  unfold cacheAfterRename
  by_cases holdc : wOld = some h.name
  · rw [if_pos holdc, mem_insertName_iff _ hm2, mem_filter_ne_iff _ hm1]
  · rw [if_neg holdc]

theorem mem_cacheAfterRename_sub {m vmName newName : String}
    {wOld : Option String} {h : HVSt}
    (hm : m ∈ cacheAfterRename wOld vmName newName h) :
    m = newName ∨ (m ∈ h.nameToVMs ∧ (m = vmName → wOld ≠ some h.name)) := by
  unfold cacheAfterRename at hm
  by_cases holdc : wOld = some h.name
  · rw [if_pos holdc] at hm
    rcases mem_insertName_cases hm with heq | hmem
    · exact Or.inl heq
    · refine Or.inr ⟨(List.mem_filter.mp hmem).1, ?_⟩
      intro heq2
      exfalso
      have hdec := (List.mem_filter.mp hmem).2
      simp [heq2] at hdec
  · rw [if_neg holdc] at hm
    by_cases heq : m = newName
    · exact Or.inl heq
    · exact Or.inr ⟨hm, fun _ => holdc⟩

theorem lookup_adel {κ ν : Type} [DecidableEq κ] [BEq κ] [LawfulBEq κ]
    (l : List (κ × ν)) (k : κ) : (adel l k).lookup k = none := by
  induction l with
  | nil => rfl
  | cons a t ih =>
    obtain ⟨a1, a2⟩ := a
    show (List.filter (fun p => decide (p.1 ≠ k)) ((a1, a2) :: t)).lookup k = none
    rw [List.filter_cons]
    by_cases hc : a1 = k
    · rw [if_neg (by simp [hc])]
      exact ih
    · rw [if_pos (by simp [hc])]
      have hbeq : (k == a1) = false := beq_eq_false_iff_ne.mpr (fun h => hc h.symm)
      simp only [List.lookup, hbeq]
      exact ih

theorem lookup_adel_ne {κ ν : Type} [DecidableEq κ] [BEq κ] [LawfulBEq κ]
    (l : List (κ × ν)) {k k' : κ} (hne : k' ≠ k) :
    (adel l k).lookup k' = l.lookup k' := by
  induction l with
  | nil => rfl
  | cons a t ih =>
    obtain ⟨a1, a2⟩ := a
    have ih2 : (List.filter (fun p => decide (p.1 ≠ k)) t).lookup k'
        = t.lookup k' := ih
    show (List.filter (fun p => decide (p.1 ≠ k)) ((a1, a2) :: t)).lookup k'
      = ((a1, a2) :: t).lookup k'
    rw [List.filter_cons]
    by_cases hc : a1 = k
    · rw [if_neg (by simp [hc])]
      have hbeq : (k' == a1) = false :=
        beq_eq_false_iff_ne.mpr (fun h => hne (h.trans hc))
      rw [ih2]
      simp only [List.lookup, hbeq]
    · rw [if_pos (by simp [hc])]
      by_cases hk : k' = a1
      · have hbeq : (k' == a1) = true := beq_iff_eq.mpr hk
        simp only [List.lookup, hbeq]
      · have hbeq : (k' == a1) = false := beq_eq_false_iff_ne.mpr hk
        simp only [List.lookup, hbeq]
        exact ih2

theorem lookup_aset_self {κ ν : Type} [DecidableEq κ] [BEq κ] [LawfulBEq κ]
    (l : List (κ × ν)) (k : κ) (v : ν) : (aset l k v).lookup k = some v := by
  show ((k, v) :: adel l k).lookup k = some v
  simp only [List.lookup, beq_self_eq_true]

theorem lookup_aset_ne {κ ν : Type} [DecidableEq κ] [BEq κ] [LawfulBEq κ]
    (l : List (κ × ν)) {k k' : κ} (v : ν) (hne : k' ≠ k) :
    (aset l k v).lookup k' = l.lookup k' := by
  show ((k, v) :: adel l k).lookup k' = l.lookup k'
  have hbeq : (k' == k) = false := beq_eq_false_iff_ne.mpr hne
  simp only [List.lookup, hbeq]
  exact lookup_adel_ne l hne

theorem le_foldl_max : ∀ (l : List Nat) (a : Nat),
    a ≤ l.foldl Nat.max a ∧ ∀ x ∈ l, x ≤ l.foldl Nat.max a
  | [], a => ⟨le_refl _, by intro x hx; cases hx⟩
  | b :: bs, a => by
    have ih := le_foldl_max bs (Nat.max a b)
    rw [List.foldl_cons]
    constructor
    · exact le_trans (Nat.le_max_left a b) ih.1
    · intro x hx
      rcases List.mem_cons.mp hx with rfl | hx2
      · exact le_trans (Nat.le_max_right a x) ih.1
      · exact ih.2 x hx2

/-- The freshly allocated port of `newPort` is not already used on the
node. -/
theorem newPort_fresh (nd : NodeSt) : newPort nd ∉ nd.ports.map Prod.snd := by
  intro hmem
  have h : ∀ (l : List Nat), nd.ports.map Prod.snd = l → newPort nd ∈ l → False := by
    intro l hl hm2
    cases l with
    | nil => cases hm2
    | cons p ps =>
      have hnp : newPort nd = ps.foldl Nat.max p + 1 := by
        unfold newPort
        rw [hl]
      rw [hnp] at hm2
      rcases List.mem_cons.mp hm2 with heq | hx2
      · have := (le_foldl_max ps p).1
        omega
      · have := (le_foldl_max ps p).2 _ hx2
        omega
  exact h _ rfl hmem

theorem findNode_props {net : Net} {n : String} {nd : NodeSt}
    (h : findNode net n = some nd) : nd ∈ net.nodes ∧ nd.name = n := by
  unfold findNode at h
  refine ⟨List.mem_of_find?_eq_some h, ?_⟩
  have := List.find?_some h
  simpa using this

theorem findIntf_props {net : Net} {k : Nat} {i : IntfSt}
    (h : findIntf net k = some i) : i ∈ net.ifs ∧ i.iid = k := by
  unfold findIntf at h
  refine ⟨List.mem_of_find?_eq_some h, ?_⟩
  have := List.find?_some h
  simpa using this

/-- `findNode` through a name-preserving node update. -/
theorem findNode_updNodeN (net : Net) (m x : String) (f : NodeSt → NodeSt)
    (hf : ∀ nd, (f nd).name = nd.name) :
    findNode (updNodeN net m f) x =
      (findNode net x).map (fun nd => if nd.name = m then f nd else nd) := by
  unfold findNode updNodeN
  rw [List.find?_map]
  have hp : (fun nd : NodeSt =>
      ((if nd.name = m then f nd else nd).name == x)) =
      (fun nd : NodeSt => nd.name == x) := by
    funext nd
    by_cases hc : nd.name = m
    · rw [if_pos hc, hf nd]
    · rw [if_neg hc]
  show ((List.find? ((fun nd : NodeSt => nd.name == x) ∘
      (fun nd => if nd.name = m then f nd else nd)) net.nodes).map
      (fun nd => if nd.name = m then f nd else nd)) = _
  have hcomp : ((fun nd : NodeSt => nd.name == x) ∘
      (fun nd => if nd.name = m then f nd else nd)) =
      (fun nd : NodeSt => nd.name == x) := by
    funext nd
    show ((if nd.name = m then f nd else nd).name == x) = (nd.name == x)
    by_cases hc : nd.name = m
    · rw [if_pos hc, hf nd]
    · rw [if_neg hc]
  rw [hcomp]

/-- `findIntf` through an id-preserving interface update. -/
theorem findIntf_updIntfN (net : Net) (k : Nat) (x : Nat) (f : IntfSt → IntfSt)
    (hf : ∀ i, (f i).iid = i.iid) :
    findIntf (updIntfN net k f) x =
      (findIntf net x).map (fun i => if i.iid = k then f i else i) := by
  unfold findIntf updIntfN
  rw [List.find?_map]
  show ((List.find? ((fun i : IntfSt => i.iid == x) ∘
      (fun i => if i.iid = k then f i else i)) net.ifs).map
      (fun i => if i.iid = k then f i else i)) = _
  have hcomp : ((fun i : IntfSt => i.iid == x) ∘
      (fun i => if i.iid = k then f i else i)) =
      (fun i : IntfSt => i.iid == x) := by
    funext i
    show ((if i.iid = k then f i else i).iid == x) = (i.iid == x)
    by_cases hc : i.iid = k
    · rw [if_pos hc, hf i]
    · rw [if_neg hc]
  rw [hcomp]

/-- Under the registry's consistency preconditions, the `hv` setter
succeeds and its effect has the canonical filter/insert form. -/
theorem setHV_canon (s : CMS) (vmName : String) (hvOpt : Option String)
    (w : VMSt) (hw : s.findVM vmName = some w) (hwname : w.name = vmName)
    (holdfind : ∀ h0, w.hv = some h0 →
      ∃ hv, s.findHV h0 = some hv ∧ w.name ∈ hv.nameToVMs)
    (hnewsome : ∀ h0, hvOpt = some h0 → (s.findHV h0).isSome) :
    setHV s vmName hvOpt =
      ({ s with VMs := setHVCanonVMs s vmName hvOpt,
                HVs := setHVCanonHVs s w.hv vmName hvOpt }, none) := by
  cases hhv : w.hv with
  | none =>
    cases hvOpt with
    | none =>
      have hHV : setHVCanonHVs s none vmName none = s.HVs := by
        unfold setHVCanonHVs
        have hid : ∀ h ∈ s.HVs,
            ({ h with nameToVMs := cacheAfterSet none vmName none h } : HVSt)
              = h := by
          intro h _
          simp [cacheAfterSet]
        rw [List.map_congr_left hid]
        simp
      simp only [setHV, hw, hhv]
      simp only [CMS.updVM, setHVCanonVMs, hHV]
    | some newN =>
      obtain ⟨hvN, hfindN⟩ := Option.isSome_iff_exists.mp (hnewsome newN rfl)
      have hfind2 : (s.updVM vmName
          (fun v => { v with hv := some newN })).findHV newN = some hvN := hfindN
      have hHV : List.map
          (fun h => if h.name = newN then
            { h with nameToVMs := insertName w.name h.nameToVMs } else h)
          s.HVs = setHVCanonHVs s none vmName (some newN) := by
        unfold setHVCanonHVs cacheAfterSet
        refine List.map_congr_left ?_
        intro h _
        by_cases hc : h.name = newN
        · simp [hc, hwname]
        · simp [hc, Ne.symm hc]
      simp only [setHV, hw, hhv]
      rw [hfind2]
      simp only [CMS.updVM, CMS.updHV, setHVCanonVMs, hHV]
  | some oldN =>
    obtain ⟨oldHv, hfindold, hmemold⟩ := holdfind oldN hhv
    cases hvOpt with
    | none =>
      have hHV : List.map
          (fun h => if h.name = oldN then
            { h with nameToVMs :=
                h.nameToVMs.filter (fun m => decide (m ≠ w.name)) } else h)
          s.HVs = setHVCanonHVs s (some oldN) vmName none := by
        unfold setHVCanonHVs cacheAfterSet
        refine List.map_congr_left ?_
        intro h _
        by_cases hc : h.name = oldN
        · simp [hc, hwname]
        · simp [hc, Ne.symm hc]
      simp only [setHV, hw, hhv, hfindold]
      rw [if_pos hmemold]
      simp only []
      simp only [CMS.updVM, CMS.updHV, setHVCanonVMs, hHV]
    | some newN =>
      have hsome2 : (((s.updHV oldN (fun h =>
          { h with nameToVMs :=
              h.nameToVMs.filter (fun m => decide (m ≠ w.name)) })).updVM vmName
          (fun v => { v with hv := some newN })).findHV newN).isSome := by
        have hiff : ((s.updHV oldN (fun h =>
            { h with nameToVMs :=
                h.nameToVMs.filter (fun m => decide (m ≠ w.name)) })).findHV
            newN).isSome ↔ (s.findHV newN).isSome :=
          findHV_updHV_isSome s oldN newN _ (fun h => rfl)
        exact hiff.mpr (hnewsome newN rfl)
      obtain ⟨hvN, hfindN⟩ := Option.isSome_iff_exists.mp hsome2
      have hHV : List.map
            (fun h => if h.name = newN then
              { h with nameToVMs := insertName w.name h.nameToVMs } else h)
            (List.map
              (fun h => if h.name = oldN then
                { h with nameToVMs :=
                    h.nameToVMs.filter (fun m => decide (m ≠ w.name)) } else h)
              s.HVs)
          = setHVCanonHVs s (some oldN) vmName (some newN) := by
        rw [List.map_map]
        unfold setHVCanonHVs cacheAfterSet
        refine List.map_congr_left ?_
        intro h _
        by_cases hc1 : h.name = oldN
        · by_cases hc2 : h.name = newN
          · have heq : oldN = newN := by rw [← hc1, hc2]
            simp [Function.comp, hc1, hc2, heq, hwname]
          · have hne : ¬ oldN = newN := fun hx => hc2 (by rw [hc1, hx])
            have hne2 : ¬ newN = oldN := fun hx => hne hx.symm
            simp [Function.comp, hc1, hc2, hne, hne2, hwname, Ne.symm hc2]
        · by_cases hc2 : h.name = newN
          · have hne : ¬ newN = oldN := fun hx => hc1 (by rw [hc2, hx])
            have hne2 : ¬ oldN = newN := fun hx => hne hx.symm
            simp [Function.comp, hc1, hc2, hne, hne2, Ne.symm hc1, hwname]
          · simp [Function.comp, hc1, hc2, Ne.symm hc1, Ne.symm hc2]
      simp only [setHV, hw, hhv, hfindold]
      rw [if_pos hmemold]
      simp only []
      rw [hfindN]
      simp only [CMS.updVM, CMS.updHV, setHVCanonVMs, hHV]

/-- The canonical effect of the `hv` setter preserves registry-cache
consistency and name uniqueness. -/
theorem setHVCanon_reg (s : CMS) (vmName : String) (hvOpt : Option String)
    (w : VMSt) (hwmem : w ∈ s.VMs) (hwname : w.name = vmName)
    (hwf : NamesOK s) (hinv : RegInv s) :
    RegInv { s with VMs := setHVCanonVMs s vmName hvOpt,
                    HVs := setHVCanonHVs s w.hv vmName hvOpt } ∧
    NamesOK { s with VMs := setHVCanonVMs s vmName hvOpt,
                     HVs := setHVCanonHVs s w.hv vmName hvOpt } := by
  have hfVname : ∀ v : VMSt,
      ((if v.name = vmName then { v with hv := hvOpt } else v) : VMSt).name
        = v.name := by
    intro v
    by_cases hc : v.name = vmName
    · rw [if_pos hc]
    · rw [if_neg hc]
  have hnamesV : (setHVCanonVMs s vmName hvOpt).map VMSt.name
      = s.VMs.map VMSt.name := by
    unfold setHVCanonVMs
    rw [List.map_map]
    exact List.map_congr_left (fun v _ => hfVname v)
  have hnamesH : (setHVCanonHVs s w.hv vmName hvOpt).map HVSt.name
      = s.HVs.map HVSt.name := by
    unfold setHVCanonHVs
    rw [List.map_map]
    exact List.map_congr_left (fun h _ => rfl)
  refine ⟨⟨?_, ?_⟩, ?_, ?_⟩
  · -- cache membership ↔ pointer, for every pair
    intro hv' hmem' vm' hmem''
    simp only [setHVCanonHVs, List.mem_map] at hmem'
    simp only [setHVCanonVMs, List.mem_map] at hmem''
    obtain ⟨h0, hh0, rfl⟩ := hmem'
    obtain ⟨v0, hv0, rfl⟩ := hmem''
    by_cases hveq : v0.name = vmName
    · have hv0w : v0 = w := name_inj_VM hwf.1 hv0 hwmem (by rw [hveq, hwname])
      subst hv0w
      rw [if_pos hveq]
      show v0.name ∈ cacheAfterSet v0.hv vmName hvOpt h0 ↔ hvOpt = some h0.name
      rw [hveq, self_mem_cacheAfterSet]
      constructor
      · rintro (hx | ⟨hne, hmemx⟩)
        · exact hx
        · exfalso
          exact hne ((hinv.1 h0 hh0 v0 hv0).mp (hveq.symm ▸ hmemx))
      · exact Or.inl
    · rw [if_neg hveq]
      show v0.name ∈ cacheAfterSet w.hv vmName hvOpt h0 ↔ v0.hv = some h0.name
      rw [mem_cacheAfterSet_of_ne _ _ _ hveq]
      exact hinv.1 h0 hh0 v0 hv0
  · -- every cached name is a registered VM's name
    intro hv' hmem' n hn
    simp only [setHVCanonHVs, List.mem_map] at hmem'
    obtain ⟨h0, hh0, rfl⟩ := hmem'
    have hn2 : n ∈ cacheAfterSet w.hv vmName hvOpt h0 := hn
    have himg : ∀ v0 ∈ s.VMs, ∃ vm, vm ∈ setHVCanonVMs s vmName hvOpt ∧
        vm.name = v0.name := by
      intro v0 hv0
      refine ⟨(if v0.name = vmName then { v0 with hv := hvOpt } else v0), ?_,
        hfVname v0⟩
      exact List.mem_map_of_mem _ hv0
    rcases mem_cacheAfterSet_sub hn2 with rfl | hmemn
    · obtain ⟨vmw, hvmw, hname⟩ := himg w hwmem
      exact ⟨vmw, hvmw, by rw [hname, hwname]⟩
    · obtain ⟨v0, hv0, hname0⟩ := hinv.2 h0 hh0 n hmemn
      obtain ⟨vm1, hvm1, hname1⟩ := himg v0 hv0
      exact ⟨vm1, hvm1, by rw [hname1, hname0]⟩
  · show ((setHVCanonVMs s vmName hvOpt).map VMSt.name).Nodup
    rw [hnamesV]
    exact hwf.1
  · show ((setHVCanonHVs s w.hv vmName hvOpt).map HVSt.name).Nodup
    rw [hnamesH]
    exact hwf.2

/-- Under the registry's consistency preconditions, the name setter
succeeds and its effect has the canonical rename form. -/
theorem renameVM_canon (s : CMS) (vmName newName : String) (w : VMSt)
    (hw : s.findVM vmName = some w)
    (holdfind : ∀ h0, w.hv = some h0 →
      ∃ hv, s.findHV h0 = some hv ∧ vmName ∈ hv.nameToVMs) :
    renameVM s vmName newName =
      ({ s with VMs := renameCanonVMs s vmName newName,
                HVs := renameCanonHVs s w.hv vmName newName }, none) := by
  cases hhv : w.hv with
  | none =>
    have hHV : renameCanonHVs s none vmName newName = s.HVs := by
      unfold renameCanonHVs cacheAfterRename
      have hid : ∀ h ∈ s.HVs,
          ({ h with nameToVMs :=
              if (none : Option String) = some h.name then
                insertName newName (h.nameToVMs.filter (fun m => decide (m ≠ vmName)))
              else h.nameToVMs } : HVSt) = h := by
        intro h _
        simp
      rw [List.map_congr_left hid]
      simp
    simp only [renameVM, hw, hhv]
    simp only [CMS.updVM, renameCanonVMs, hHV]
  | some hvN =>
    obtain ⟨h1, hfind1, hmem1⟩ := holdfind hvN hhv
    have hfind1b : (s.updVM vmName
        (fun v => { v with name := newName })).findHV hvN = some h1 := hfind1
    have hHV : List.map
        (fun h => if h.name = hvN then
          { h with nameToVMs := insertName newName (h.nameToVMs.filter (fun m => decide (m ≠ vmName))) }
          else h)
        s.HVs = renameCanonHVs s (some hvN) vmName newName := by
      unfold renameCanonHVs cacheAfterRename
      refine List.map_congr_left ?_
      intro h _
      by_cases hc : h.name = hvN
      · simp [hc]
      · simp [hc, Ne.symm hc]
    simp only [renameVM, hw, hhv]
    rw [hfind1b]
    simp only []
    rw [if_pos hmem1]
    simp only [CMS.updVM, CMS.updHV, renameCanonVMs, hHV]

/-- The canonical effect of the name setter preserves registry-cache
consistency and name uniqueness, given the new name unused. -/
theorem renameCanon_reg (s : CMS) (vmName newName : String)
    (w : VMSt) (hwmem : w ∈ s.VMs) (hwname : w.name = vmName)
    (hwf : NamesOK s) (hinv : RegInv s)
    (hfresh : ∀ v ∈ s.VMs, v.name = newName → v.name = vmName) :
    RegInv { s with VMs := renameCanonVMs s vmName newName,
                    HVs := renameCanonHVs s w.hv vmName newName } ∧
    NamesOK { s with VMs := renameCanonVMs s vmName newName,
                     HVs := renameCanonHVs s w.hv vmName newName } := by
  have hfname : ∀ v : VMSt,
      ((if v.name = vmName then { v with name := newName } else v) : VMSt).name
        = if v.name = vmName then newName else v.name := by
    intro v
    by_cases hc : v.name = vmName
    · rw [if_pos hc, if_pos hc]
    · rw [if_neg hc, if_neg hc]
  have hnodupVM : s.VMs.Nodup := hwf.1.of_map
  have hnamesV : (renameCanonVMs s vmName newName).map VMSt.name
      = s.VMs.map (fun v => if v.name = vmName then newName else v.name) := by
    unfold renameCanonVMs
    rw [List.map_map]
    exact List.map_congr_left (fun v _ => hfname v)
  have hnamesH : (renameCanonHVs s w.hv vmName newName).map HVSt.name
      = s.HVs.map HVSt.name := by
    unfold renameCanonHVs
    rw [List.map_map]
    exact List.map_congr_left (fun h _ => rfl)
  refine ⟨⟨?_, ?_⟩, ?_, ?_⟩
  · intro hv' hmem' vm' hmem''
    simp only [renameCanonHVs, List.mem_map] at hmem'
    simp only [renameCanonVMs, List.mem_map] at hmem''
    obtain ⟨h0, hh0, rfl⟩ := hmem'
    obtain ⟨v0, hv0, rfl⟩ := hmem''
    by_cases hveq : v0.name = vmName
    · have hv0w : v0 = w := name_inj_VM hwf.1 hv0 hwmem (by rw [hveq, hwname])
      subst hv0w
      rw [if_pos hveq]
      show newName ∈ cacheAfterRename v0.hv vmName newName h0 ↔
        v0.hv = some h0.name
      unfold cacheAfterRename
      by_cases holdc : v0.hv = some h0.name
      · rw [if_pos holdc]
        constructor
        · intro _
          exact holdc
        · intro _
          exact mem_insertName_self newName _
      · rw [if_neg holdc]
        constructor
        · intro hmemx
          exfalso
          obtain ⟨u, hu, huname⟩ := hinv.2 h0 hh0 newName hmemx
          have huv : u.name = vmName := hfresh u hu huname
          have : u = v0 := name_inj_VM hwf.1 hu hv0 (by rw [huv, hveq])
          subst this
          have hvn : newName = vmName := by rw [← huname, huv]
          rw [hvn] at hmemx
          exact holdc ((hinv.1 h0 hh0 u hu).mp (hveq.symm ▸ hmemx))
        · intro hc
          exact absurd hc holdc
    · rw [if_neg hveq]
      show v0.name ∈ cacheAfterRename w.hv vmName newName h0 ↔
        v0.hv = some h0.name
      have hne2 : v0.name ≠ newName := fun hx => hveq (hfresh v0 hv0 hx)
      rw [mem_cacheAfterRename_of_ne _ _ hveq hne2]
      exact hinv.1 h0 hh0 v0 hv0
  · intro hv' hmem' n hn
    simp only [renameCanonHVs, List.mem_map] at hmem'
    obtain ⟨h0, hh0, rfl⟩ := hmem'
    have hn2 : n ∈ cacheAfterRename w.hv vmName newName h0 := hn
    rcases mem_cacheAfterRename_sub hn2 with rfl | ⟨hmemn, hguard⟩
    · refine ⟨(if w.name = vmName then { w with name := n } else w), ?_, ?_⟩
      · exact List.mem_map_of_mem _ hwmem
      · rw [if_pos hwname]
    · obtain ⟨u, hu, huname⟩ := hinv.2 h0 hh0 n hmemn
      by_cases huv : u.name = vmName
      · exfalso
        have hnv : n = vmName := by rw [← huname, huv]
        have hne := hguard hnv
        rw [hnv] at hmemn
        have hup : u.hv = some h0.name :=
          (hinv.1 h0 hh0 u hu).mp (huv.symm ▸ hmemn)
        have huw : u = w := name_inj_VM hwf.1 hu hwmem (by rw [huv, hwname])
        rw [huw] at hup
        exact hne hup
      · refine ⟨(if u.name = vmName then { u with name := newName } else u),
          ?_, ?_⟩
        · exact List.mem_map_of_mem _ hu
        · rw [if_neg huv]
          exact huname
  · show ((renameCanonVMs s vmName newName).map VMSt.name).Nodup
    rw [hnamesV]
    refine List.Nodup.map_on ?_ hnodupVM
    intro x hx y hy hxy
    by_cases hcx : x.name = vmName
    · by_cases hcy : y.name = vmName
      · exact name_inj_VM hwf.1 hx hy (by rw [hcx, hcy])
      · rw [if_pos hcx, if_neg hcy] at hxy
        exact absurd (hcy (hfresh y hy hxy.symm)).elim id
    · by_cases hcy : y.name = vmName
      · rw [if_neg hcx, if_pos hcy] at hxy
        exact absurd (hcx (hfresh x hx hxy)).elim id
      · rw [if_neg hcx, if_neg hcy] at hxy
        exact name_inj_VM hwf.1 hx hy hxy
  · show ((renameCanonHVs s w.hv vmName newName).map HVSt.name).Nodup
    rw [hnamesH]
    exact hwf.2

/-!
## Claim theorems and witnesses
-/

/-- C1: the claim says `launchVM` with an explicit enabled hypervisor
moves the endpoint, sets `running_hypervisor`, runs the start hook,
records `last_hypervisor` and notifies `instantiated`.  On the code, for
an inactive registered VM and an enabled hypervisor, the endpoint is
moved onto the hypervisor's node but the very next step `vm.launch(hv)`
raises `AttributeError` (`VirtualMachine` defines `launchOn`, not
`launch`), so `running_hypervisor` stays `None`, no hook runs, `last_HV`
is not recorded, and no controller message is sent. -/
theorem launchVM_missing_launch_method_effects :
    (launchVM sInactive "v1" (some "h1")).2 = some PyErr.attributeError ∧
    ((launchVM sInactive "v1" (some "h1")).1.findVM "v1").map VMSt.loc
      = some (Loc.onHV "h1") ∧
    ((launchVM sInactive "v1" (some "h1")).1.findVM "v1").map VMSt.hv
      = some none ∧
    (launchVM sInactive "v1" (some "h1")).1.last_HV = none ∧
    (launchVM sInactive "v1" (some "h1")).1.msgs = [] ∧
    (launchVM sInactive "v1" (some "h1")).1.scripts = [] := by
  decide

/-- C2: when automatic hypervisor selection reports no hypervisor
available (`_getNextDefaultHV` returns `None`), `launchVM` aborts before
any mutation: the returned state equals the input state (registry,
endpoints, `last_HV`, controller-message and hook logs all unchanged)
and no error is raised. -/
theorem launchVM_auto_select_failure_no_mutation (s : CMS) (vmName : String)
    (h : getNextDefaultHV s = Except.ok none) :
    launchVM s vmName none = (s, none) := by
  simp only [launchVM, h]

/-- Witness for C2 at a concrete packed-mode state whose only
hypervisor is at capacity. -/
theorem launchVM_auto_select_failure_no_mutation_witness :
    getNextDefaultHV sPackedFull = Except.ok none ∧
    launchVM sPackedFull "v1" none = (sPackedFull, none) :=
  ⟨rfl, launchVM_auto_select_failure_no_mutation sPackedFull "v1" rfl⟩

/-- C4: the claim says `pauseVM` moves a running unpaused VM's endpoint
to the sink, keeps `running_hypervisor`, runs the pause hook and makes
`is_paused()` true.  On the code, `CMSnet.pauseVM` only asserts the
preconditions and then calls `not_implemented()` (a print): the state is
returned unchanged, `is_paused()` stays false, the endpoint stays on the
hypervisor's node and no hook runs. -/
theorem pauseVM_stub_leaves_state_unchanged :
    pauseVM sRunning "v1" = (sRunning, none) ∧
    ((pauseVM sRunning "v1").1.findVM "v1").map VMSt.is_paused = some false ∧
    ((pauseVM sRunning "v1").1.findVM "v1").map VMSt.loc
      = some (Loc.onHV "h1") ∧
    (pauseVM sRunning "v1").1.scripts = [] := by
  decide

/-- C5: the claim says `migrateVM` with no explicit target resolves one
automatically via the placement policy engine (excluding the current
hypervisor).  On the code, `CMSnet.migrateVM` requires `hv`; the API
layer's default `hv=None` reaches `assert hv in self.HVs`, which fails:
an `AssertionError` is raised, no selection happens, and the state is
unchanged. -/
theorem migrateVM_none_target_assertion_error :
    migrateVM sRunning "v1" none = (sRunning, some PyErr.assertionError) := by
  decide

/-- C6: the claim says `deleteVM` succeeds for every registered VM
(stopping it first when running) and unregisters it.  On the code,
after the conditional stop `deleteVM` calls `self.stopVM(vm)` again
unconditionally, whose `assert vm.is_running()` now always fails: both
for an inactive VM and for a running VM the call raises
`AssertionError` and the VM remains in `VMs` and `nameToComp`. -/
theorem deleteVM_always_fails_assertion :
    deleteVM sInactive "v1" = (sInactive, some PyErr.assertionError) ∧
    (deleteVM sRunning "v1").2 = some PyErr.assertionError ∧
    ((deleteVM sRunning "v1").1.findVM "v1").isSome = true ∧
    "v1" ∈ (deleteVM sRunning "v1").1.nameToComp ∧
    "v1" ∈ (deleteVM sInactive "v1").1.nameToComp := by
  decide

/-- C7: the claim says disabling a hypervisor first evicts every hosted
VM, so a disabled hypervisor hosts none.  On the code, `disableHV` only
flips `_enabled` to false (`hv.disable()`) and then calls the
`not_implemented()` stub: disabling `h1` while it hosts `v1` succeeds
and leaves `h1.nameToVMs` still containing `v1`, violating the claimed
invariant. -/
theorem disableHV_keeps_hosted_vms :
    (disableHV sRunning "h1").2 = none ∧
    ((disableHV sRunning "h1").1.findHV "h1").map HVSt.is_enabled
      = some false ∧
    ((disableHV sRunning "h1").1.findHV "h1").map HVSt.nameToVMs
      = some ["v1"] := by
  decide

/-- C10: the per-hypervisor hosted-VM cache stays consistent with the
authoritative per-VM pointer.  After any assignment of a VM's `hv`
attribute and after any rename of the VM, a VM's name is in a
hypervisor's `nameToVMs` exactly when the VM's `hv` names that
hypervisor (`RegInv`), names stay unique, no error is raised, and the
setter's assertions hold: the updated VM's pointer equals the assigned
value, a non-`None` pointer implies `is_running()` and a `None` pointer
implies not running.  Preconditions: unique names, the invariant before
the call, the VM registered, and the mentioned hypervisors registered
(for rename: the new name unused by other VMs). -/
theorem hv_cache_consistency :
    (∀ (s : CMS) (vmName : String) (hvOpt : Option String) (w : VMSt),
      NamesOK s → RegInv s → s.findVM vmName = some w →
      (∀ h0, w.hv = some h0 → (s.findHV h0).isSome) →
      (∀ h0, hvOpt = some h0 → (s.findHV h0).isSome) →
      (setHV s vmName hvOpt).2 = none ∧
      RegInv (setHV s vmName hvOpt).1 ∧ NamesOK (setHV s vmName hvOpt).1 ∧
      (∀ vm2 ∈ (setHV s vmName hvOpt).1.VMs, vm2.name = vmName →
        vm2.hv = hvOpt ∧ (vm2.hv ≠ none → vm2.is_running = true) ∧
        (vm2.hv = none → vm2.is_running = false))) ∧
    (∀ (s : CMS) (vmName newName : String) (w : VMSt),
      NamesOK s → RegInv s → s.findVM vmName = some w →
      (∀ h0, w.hv = some h0 → (s.findHV h0).isSome) →
      (∀ v ∈ s.VMs, v.name = newName → v.name = vmName) →
      (renameVM s vmName newName).2 = none ∧
      RegInv (renameVM s vmName newName).1 ∧
      NamesOK (renameVM s vmName newName).1) := by
  constructor
  · intro s vmName hvOpt w hwf hinv hw holdsome hnewsome
    obtain ⟨hwmem, hwname⟩ := findVM_props hw
    have holdfind : ∀ h0, w.hv = some h0 →
        ∃ hv, s.findHV h0 = some hv ∧ w.name ∈ hv.nameToVMs := by
      intro h0 hh0
      obtain ⟨hv, hfind⟩ := Option.isSome_iff_exists.mp (holdsome h0 hh0)
      obtain ⟨hvmem, hvname⟩ := findHV_props hfind
      refine ⟨hv, hfind, ?_⟩
      exact (hinv.1 hv hvmem w hwmem).mpr (by rw [hh0, hvname])
    have hcanon := setHV_canon s vmName hvOpt w hw hwname holdfind hnewsome
    rw [hcanon]
    obtain ⟨hreg, hnodup⟩ :=
      setHVCanon_reg s vmName hvOpt w hwmem hwname hwf hinv
    refine ⟨rfl, hreg, hnodup, ?_⟩
    intro vm2 hmem2 hname2
    have hmem2' : vm2 ∈ setHVCanonVMs s vmName hvOpt := hmem2
    simp only [setHVCanonVMs, List.mem_map] at hmem2'
    obtain ⟨v0, hv0, rfl⟩ := hmem2'
    by_cases hc : v0.name = vmName
    · rw [if_pos hc]
      refine ⟨rfl, ?_, ?_⟩
      · intro hne
        simpa [VMSt.is_running, VMSt.hv_name] using
          Option.ne_none_iff_isSome.mp hne
      · intro heq
        simp only [VMSt.is_running, VMSt.hv_name]
        simp only at heq
        simp [heq]
    · rw [if_neg hc] at hname2
      exact absurd hname2 hc
  · intro s vmName newName w hwf hinv hw holdsome hfresh
    obtain ⟨hwmem, hwname⟩ := findVM_props hw
    have holdfind : ∀ h0, w.hv = some h0 →
        ∃ hv, s.findHV h0 = some hv ∧ vmName ∈ hv.nameToVMs := by
      intro h0 hh0
      obtain ⟨hv, hfind⟩ := Option.isSome_iff_exists.mp (holdsome h0 hh0)
      obtain ⟨hvmem, hvname⟩ := findHV_props hfind
      refine ⟨hv, hfind, ?_⟩
      have hx := (hinv.1 hv hvmem w hwmem).mpr (by rw [hh0, hvname])
      rwa [hwname] at hx
    have hcanon := renameVM_canon s vmName newName w hw holdfind
    rw [hcanon]
    obtain ⟨hreg, hnodup⟩ :=
      renameCanon_reg s vmName newName w hwmem hwname hwf hinv hfresh
    exact ⟨rfl, hreg, hnodup⟩

/-- C8: `_removeLink` on a VM whose endpoint is already attached to the
dummy (either link end on the dummy node) is a no-op: a warning event is
emitted, no error is raised, and the node and interface bookkeeping is
returned unchanged. -/
theorem removeLink_on_dummy_noop (net : Net) (n : String)
    (nd dnd : NodeSt) (k k2 : Nat) (iSt pSt : IntfSt)
    (hnd : findNode net n = some nd) (hkind : nd.kind = NKind.host)
    (hdummy : findNode net "dummy" = some dnd)
    (hdkind : dnd.kind = NKind.dummy)
    (hdef : defaultIntfId nd = some k)
    (hint : findIntf net k = some iSt)
    (hpeer : iSt.peer = some k2)
    (hnode : iSt.node ≠ "dummy")
    (hpint : findIntf net k2 = some pSt)
    (hpnode : pSt.node = "dummy") :
    removeLink net n none true =
      ({ net with events := net.events ++ [REvent.warnedRemoved iSt.name] },
       none) := by
  have hne : (iSt.node == "dummy") = false := beq_eq_false_iff_ne.mpr hnode
  simp only [removeLink, hnd, hdummy, hdef, hint, hpeer, hpint]
  simp [hkind, hdkind, hne, hpnode]

/-- Witness for C8 at the concrete fabric `netOnDummy`, whose host `v1`
is linked to the dummy. -/
theorem removeLink_on_dummy_noop_witness :
    removeLink netOnDummy "v1" none true =
      ({ netOnDummy with events := [REvent.warnedRemoved "v1-eth0"] },
       none) := by
  have h := removeLink_on_dummy_noop netOnDummy "v1" vHost dNode 1 2 vIntf
    dIntf rfl rfl rfl rfl rfl rfl rfl (by decide) rfl rfl
  exact h

/-- C9: every endpoint move between distinct fabric nodes keeps the
moved interface attached to exactly one node.  `_moveLink` (a) succeeds,
(b) leaves the interface attached exactly to the destination node,
(c) deletes it from the source's port, interface and name tables,
(d) inserts it into the destination's three tables under a freshly
allocated port and renames it for its new owner, (e) the allocated port
was not in use on the destination, (f) `detach` on the source (when the
capability exists) is invoked before the removal and `attach` on the
destination after the insertion, and (g) every other interface keeps its
attachment unchanged on every node. -/
theorem moveLink_moves_endpoint (net : Net) (n1 n2 : String)
    (nd1 nd2 srcNd : NodeSt) (k1 k2 p_old : Nat) (i1 i2 : IntfSt)
    (hnd1 : findNode net n1 = some nd1) (hkind1 : nd1.kind = NKind.host)
    (hnd2 : findNode net n2 = some nd2)
    (hkind2 : nd2.kind = NKind.switch ∨ nd2.kind = NKind.dummy)
    (hdef : defaultIntfId nd1 = some k1)
    (hi1 : findIntf net k1 = some i1)
    (hpeer : i1.peer = some k2)
    (hi1node : i1.node = n1)
    (hi2 : findIntf net k2 = some i2)
    (hsrc : findNode net i2.node = some srcNd)
    (hport : srcNd.ports.lookup k2 = some p_old)
    (hsne : i2.node ≠ n2)
    (huniq : ∀ nd ∈ net.nodes, (nd.ports.lookup k2).isSome →
      nd.name = i2.node) :
    (moveLink net n1 n2 none none).2 = none ∧
    (∀ nd' ∈ (moveLink net n1 n2 none none).1.nodes,
      ((nd'.ports.lookup k2).isSome ↔ nd'.name = n2)) ∧
    (∃ srcNd2, findNode (moveLink net n1 n2 none none).1 i2.node
        = some srcNd2 ∧
      srcNd2.ports.lookup k2 = none ∧ srcNd2.intfs.lookup p_old = none ∧
      srcNd2.nameToIntf.lookup i2.name = none) ∧
    (∃ nd2b, findNode (moveLink net n1 n2 none none).1 n2 = some nd2b ∧
      nd2b.ports.lookup k2 = some (newPort nd2) ∧
      nd2b.intfs.lookup (newPort nd2) = some k2 ∧
      nd2b.nameToIntf.lookup (n2 ++ "-eth" ++ toString (newPort nd2))
        = some k2) ∧
    (∃ i2b, findIntf (moveLink net n1 n2 none none).1 k2 = some i2b ∧
      i2b.name = n2 ++ "-eth" ++ toString (newPort nd2) ∧ i2b.node = n2) ∧
    newPort nd2 ∉ nd2.ports.map Prod.snd ∧
    (moveLink net n1 n2 none none).1.events = net.events ++
      (if srcNd.hasDetach then [REvent.detached i2.node k2] else []) ++
      [REvent.removedFrom i2.node k2,
       REvent.insertedInto n2 k2 (newPort nd2),
       REvent.movedIntf (n2 ++ "-eth" ++ toString (newPort nd2)) n2] ++
      (if nd2.hasAttach then [REvent.attached n2 k2] else []) ∧
    (∀ j, j ≠ k2 → ∀ nd0 ∈ net.nodes,
      ∃ nd0b ∈ (moveLink net n1 n2 none none).1.nodes,
        nd0b.name = nd0.name ∧ nd0b.ports.lookup j = nd0.ports.lookup j) := by
  have hnd2name : nd2.name = n2 := (findNode_props hnd2).2
  have hsrcname : srcNd.name = i2.node := (findNode_props hsrc).2
  have hbeqs : (i2.node == n2) = false := beq_eq_false_iff_ne.mpr hsne
  have hfindn2u : findNode (updNodeN net i2.node (fun nd =>
      { nd with intfs := adel nd.intfs p_old, ports := adel nd.ports k2,
                nameToIntf := adel nd.nameToIntf i2.name })) n2 = some nd2 := by
    rw [findNode_updNodeN net i2.node n2 (fun nd =>
      { nd with intfs := adel nd.intfs p_old, ports := adel nd.ports k2,
                nameToIntf := adel nd.nameToIntf i2.name }) (fun nd => rfl),
      hnd2]
    have hnn : ¬ (nd2.name = i2.node) := by
      rw [hnd2name]
      exact fun hx => hsne hx.symm
    simp [hnn]
  have hmv : moveLink net n1 n2 none none =
      ({ updNodeN (updIntfN (updNodeN net i2.node (fun nd =>
          { nd with intfs := adel nd.intfs p_old, ports := adel nd.ports k2,
                    nameToIntf := adel nd.nameToIntf i2.name }))
          k2 (fun i =>
          { i with name := n2 ++ "-eth" ++ toString (newPort nd2),
                   node := n2 }))
          n2 (fun nd =>
          { nd with intfs := aset nd.intfs (newPort nd2) k2,
                    ports := aset nd.ports k2 (newPort nd2),
                    nameToIntf := aset nd.nameToIntf
                      (n2 ++ "-eth" ++ toString (newPort nd2)) k2 })
        with events := net.events ++
          (if srcNd.hasDetach then [REvent.detached i2.node k2] else []) ++
          [REvent.removedFrom i2.node k2,
           REvent.insertedInto n2 k2 (newPort nd2),
           REvent.movedIntf (n2 ++ "-eth" ++ toString (newPort nd2)) n2] ++
          (if nd2.hasAttach then [REvent.attached n2 k2] else []) },
       none) := by
    rcases hkind2 with hk2 | hk2 <;>
      simp [moveLink, hnd1, hnd2, hkind1, hk2, hdef, hi1, hpeer, hi1node,
        hi2, hsrc, hport, hfindn2u, hbeqs] <;>
      rfl
  have hnodes : (moveLink net n1 n2 none none).1.nodes =
      List.map (fun nd => if nd.name = n2 then
        { nd with intfs := aset nd.intfs (newPort nd2) k2,
                  ports := aset nd.ports k2 (newPort nd2),
                  nameToIntf := aset nd.nameToIntf
                    (n2 ++ "-eth" ++ toString (newPort nd2)) k2 } else nd)
      (List.map (fun nd => if nd.name = i2.node then
        { nd with intfs := adel nd.intfs p_old, ports := adel nd.ports k2,
                  nameToIntf := adel nd.nameToIntf i2.name } else nd)
        net.nodes) := by
    rw [hmv]
    rfl
  have hifs : (moveLink net n1 n2 none none).1.ifs =
      List.map (fun i => if i.iid = k2 then
        { i with name := n2 ++ "-eth" ++ toString (newPort nd2), node := n2 }
        else i) net.ifs := by
    rw [hmv]
    rfl
  refine ⟨by rw [hmv], ?_, ?_, ?_, ?_, newPort_fresh nd2, by rw [hmv], ?_⟩
  · -- (b) unique attachment at the destination
    intro nd' hmem'
    rw [hnodes] at hmem'
    obtain ⟨ndm, hndm, rfl⟩ := List.mem_map.mp hmem'
    obtain ⟨nd0, hnd0, rfl⟩ := List.mem_map.mp hndm
    by_cases h2 : nd0.name = n2
    · have hnsrc : ¬ (nd0.name = i2.node) := by
        rw [h2]
        exact fun hx => hsne hx.symm
      rw [if_neg hnsrc, if_pos h2]
      constructor
      · intro _
        exact h2
      · intro _
        rw [lookup_aset_self]
        rfl
    · by_cases h3 : nd0.name = i2.node
      · rw [if_pos h3]
        have hname : ({ nd0 with
            intfs := adel nd0.intfs p_old,
            ports := adel nd0.ports k2,
            nameToIntf := adel nd0.nameToIntf i2.name } : NodeSt).name
            = nd0.name := rfl
        rw [if_neg (by rw [hname]; exact h2)]
        constructor
        · intro hs
          exfalso
          have hs2 : ((adel nd0.ports k2).lookup k2).isSome := hs
          rw [lookup_adel] at hs2
          exact Option.noConfusion
            (Option.isSome_iff_exists.mp hs2).choose_spec
        · intro hn
          exact absurd hn h2
      · rw [if_neg h3, if_neg h2]
        constructor
        · intro hs
          exact absurd (huniq nd0 hnd0 hs) h3
        · intro hn
          exact absurd hn h2
  · -- (c) removed from the source's tables
    have hfr : findNode (moveLink net n1 n2 none none).1 i2.node =
        some { srcNd with
               intfs := adel srcNd.intfs p_old,
               ports := adel srcNd.ports k2,
               nameToIntf := adel srcNd.nameToIntf i2.name } := by
      unfold findNode
      rw [hnodes]
      have e1 : List.map (fun nd => if nd.name = n2 then
          { nd with intfs := aset nd.intfs (newPort nd2) k2,
                    ports := aset nd.ports k2 (newPort nd2),
                    nameToIntf := aset nd.nameToIntf
                      (n2 ++ "-eth" ++ toString (newPort nd2)) k2 } else nd)
          (List.map (fun nd => if nd.name = i2.node then
            { nd with intfs := adel nd.intfs p_old,
                      ports := adel nd.ports k2,
                      nameToIntf := adel nd.nameToIntf i2.name } else nd)
            net.nodes) =
          (updNodeN (updNodeN net i2.node (fun nd =>
            { nd with intfs := adel nd.intfs p_old,
                      ports := adel nd.ports k2,
                      nameToIntf := adel nd.nameToIntf i2.name }))
            n2 (fun nd =>
            { nd with intfs := aset nd.intfs (newPort nd2) k2,
                      ports := aset nd.ports k2 (newPort nd2),
                      nameToIntf := aset nd.nameToIntf
                        (n2 ++ "-eth" ++ toString (newPort nd2)) k2 })).nodes
          := rfl
      rw [e1]
      show findNode (updNodeN (updNodeN net i2.node _) n2 _) i2.node = _
      rw [findNode_updNodeN _ n2 i2.node (fun nd => { nd with intfs := aset nd.intfs (newPort nd2) k2, ports := aset nd.ports k2 (newPort nd2), nameToIntf := aset nd.nameToIntf (n2 ++ "-eth" ++ toString (newPort nd2)) k2 }) (fun nd => rfl),
        findNode_updNodeN net i2.node i2.node (fun nd => { nd with intfs := adel nd.intfs p_old, ports := adel nd.ports k2, nameToIntf := adel nd.nameToIntf i2.name }) (fun nd => rfl), hsrc]
      simp only [Option.map_some']
      rw [if_pos hsrcname]
      have hname2 : ({ srcNd with
          intfs := adel srcNd.intfs p_old,
          ports := adel srcNd.ports k2,
          nameToIntf := adel srcNd.nameToIntf i2.name } : NodeSt).name
          = srcNd.name := rfl
      rw [if_neg (by rw [hname2, hsrcname]; exact fun hx => hsne hx)]
    exact ⟨_, hfr, lookup_adel _ _, lookup_adel _ _, lookup_adel _ _⟩
  · -- (d) inserted into the destination's tables
    have hfr : findNode (moveLink net n1 n2 none none).1 n2 =
        some { nd2 with
               intfs := aset nd2.intfs (newPort nd2) k2,
               ports := aset nd2.ports k2 (newPort nd2),
               nameToIntf := aset nd2.nameToIntf
                 (n2 ++ "-eth" ++ toString (newPort nd2)) k2 } := by
      unfold findNode
      rw [hnodes]
      have e1 : List.map (fun nd => if nd.name = n2 then
          { nd with intfs := aset nd.intfs (newPort nd2) k2,
                    ports := aset nd.ports k2 (newPort nd2),
                    nameToIntf := aset nd.nameToIntf
                      (n2 ++ "-eth" ++ toString (newPort nd2)) k2 } else nd)
          (List.map (fun nd => if nd.name = i2.node then
            { nd with intfs := adel nd.intfs p_old,
                      ports := adel nd.ports k2,
                      nameToIntf := adel nd.nameToIntf i2.name } else nd)
            net.nodes) =
          (updNodeN (updNodeN net i2.node (fun nd =>
            { nd with intfs := adel nd.intfs p_old,
                      ports := adel nd.ports k2,
                      nameToIntf := adel nd.nameToIntf i2.name }))
            n2 (fun nd =>
            { nd with intfs := aset nd.intfs (newPort nd2) k2,
                      ports := aset nd.ports k2 (newPort nd2),
                      nameToIntf := aset nd.nameToIntf
                        (n2 ++ "-eth" ++ toString (newPort nd2)) k2 })).nodes
          := rfl
      rw [e1]
      show findNode (updNodeN (updNodeN net i2.node _) n2 _) n2 = _
      rw [findNode_updNodeN _ n2 n2 (fun nd => { nd with intfs := aset nd.intfs (newPort nd2) k2, ports := aset nd.ports k2 (newPort nd2), nameToIntf := aset nd.nameToIntf (n2 ++ "-eth" ++ toString (newPort nd2)) k2 }) (fun nd => rfl),
        findNode_updNodeN net i2.node n2 (fun nd => { nd with intfs := adel nd.intfs p_old, ports := adel nd.ports k2, nameToIntf := adel nd.nameToIntf i2.name }) (fun nd => rfl), hnd2]
      simp only [Option.map_some']
      have hin : ¬ (nd2.name = i2.node) := by
        rw [hnd2name]
        exact fun hx => hsne hx.symm
      rw [if_neg hin, if_pos hnd2name]
    exact ⟨_, hfr, lookup_aset_self _ _ _, lookup_aset_self _ _ _,
      lookup_aset_self _ _ _⟩
  · -- (d) the interface is renamed for its new owner
    have hiid : i2.iid = k2 := (findIntf_props hi2).2
    have hfr : findIntf (moveLink net n1 n2 none none).1 k2 =
        some { i2 with
               name := n2 ++ "-eth" ++ toString (newPort nd2),
               node := n2 } := by
      unfold findIntf
      rw [hifs]
      have e1 : List.map (fun i => if i.iid = k2 then
          { i with name := n2 ++ "-eth" ++ toString (newPort nd2), node := n2 }
          else i) net.ifs =
          (updIntfN net k2 (fun i =>
            { i with name := n2 ++ "-eth" ++ toString (newPort nd2),
                     node := n2 })).ifs := rfl
      rw [e1]
      show findIntf (updIntfN net k2 _) k2 = _
      rw [findIntf_updIntfN net k2 k2 (fun i => { i with name := n2 ++ "-eth" ++ toString (newPort nd2), node := n2 }) (fun i => rfl), hi2]
      simp only [Option.map_some']
      rw [if_pos hiid]
    exact ⟨_, hfr, rfl, rfl⟩
  · -- (g) other interfaces keep their attachment
    intro j hj nd0 hnd0
    refine ⟨(fun nd => if nd.name = n2 then
        { nd with intfs := aset nd.intfs (newPort nd2) k2,
                  ports := aset nd.ports k2 (newPort nd2),
                  nameToIntf := aset nd.nameToIntf
                    (n2 ++ "-eth" ++ toString (newPort nd2)) k2 } else nd)
      ((fun nd => if nd.name = i2.node then
        { nd with intfs := adel nd.intfs p_old,
                  ports := adel nd.ports k2,
                  nameToIntf := adel nd.nameToIntf i2.name } else nd) nd0),
      ?_, ?_, ?_⟩
    · rw [hnodes]
      exact List.mem_map_of_mem _ (List.mem_map_of_mem _ hnd0)
    · simp only []
      by_cases h3 : nd0.name = i2.node
      · rw [if_pos h3]
        have hname : ({ nd0 with
            intfs := adel nd0.intfs p_old,
            ports := adel nd0.ports k2,
            nameToIntf := adel nd0.nameToIntf i2.name } : NodeSt).name
            = nd0.name := rfl
        have hnn : ¬ (({ nd0 with
            intfs := adel nd0.intfs p_old,
            ports := adel nd0.ports k2,
            nameToIntf := adel nd0.nameToIntf i2.name } : NodeSt).name
            = n2) := by
          rw [hname, h3]
          exact fun hx => hsne hx
        rw [if_neg hnn, hname]
      · rw [if_neg h3]
        by_cases h2 : nd0.name = n2
        · rw [if_pos h2]
        · rw [if_neg h2]
    · simp only []
      by_cases h3 : nd0.name = i2.node
      · rw [if_pos h3]
        have hname : ({ nd0 with
            intfs := adel nd0.intfs p_old,
            ports := adel nd0.ports k2,
            nameToIntf := adel nd0.nameToIntf i2.name } : NodeSt).name
            = nd0.name := rfl
        have hnn : ¬ (({ nd0 with
            intfs := adel nd0.intfs p_old,
            ports := adel nd0.ports k2,
            nameToIntf := adel nd0.nameToIntf i2.name } : NodeSt).name
            = n2) := by
          rw [hname, h3]
          exact fun hx => hsne hx
        rw [if_neg hnn]
        exact lookup_adel_ne _ hj
      · rw [if_neg h3]
        by_cases h2 : nd0.name = n2
        · rw [if_pos h2]
          exact lookup_aset_ne _ _ hj
        · rw [if_neg h2]

/-- Witness for C9 at the concrete fabric `netOnDummy`: launching the
parked VM moves its far-end interface from the dummy onto the switch
node `s1`, and afterwards the interface is attached exactly to `s1`. -/
theorem moveLink_moves_endpoint_witness :
    (moveLink netOnDummy "v1" "s1" none none).2 = none ∧
    (∀ nd' ∈ (moveLink netOnDummy "v1" "s1" none none).1.nodes,
      ((nd'.ports.lookup 2).isSome ↔ nd'.name = "s1")) := by
  have h := moveLink_moves_endpoint netOnDummy "v1" "s1" vHost sSwitch dNode
    1 2 0 vIntf dIntf rfl rfl rfl (Or.inl rfl) rfl rfl rfl rfl rfl rfl rfl
    (by decide) (by decide)
  exact ⟨h.1, h.2.1⟩

/-- Witness for C10: assigning `v1.hv := h2` on the two-hypervisor state
and renaming the hosted VM `v0` to the unused name `v9` both succeed and
preserve the cache consistency invariant. -/
theorem hv_cache_consistency_witness :
    (setHV sPackedW "v1" (some "h2")).2 = none ∧
    RegInv (setHV sPackedW "v1" (some "h2")).1 ∧
    (renameVM sPackedW "v0" "v9").2 = none ∧
    RegInv (renameVM sPackedW "v0" "v9").1 := by
  have hA := hv_cache_consistency.1 sPackedW "v1" (some "h2") v1Inactive
    (by unfold NamesOK; decide) (by unfold RegInv; decide) rfl
    (fun h0 h => by simp [v1Inactive] at h)
    (fun h0 h => by
      have h2 : some "h2" = some h0 := h
      injection h2 with h3
      subst h3
      rfl)
  have hB := hv_cache_consistency.2 sPackedW "v0" "v9"
    { name := "v0", vm_script := none, tenant_id := 1, hv := some "h1",
      is_paused_flag := false, loc := Loc.onHV "h1", vm_script_pid := none }
    (by unfold NamesOK; decide) (by unfold RegInv; decide) rfl
    (fun h0 h => by
      have h2 : some "h1" = some h0 := h
      injection h2 with h3
      subst h3
      rfl)
    (by decide)
  exact ⟨hA.1, hA.2.1, hB.1, hB.2.1⟩

/-- C3: under packed mode, automatic selection (`_getNextDefaultHV`)
returns a hypervisor of maximal hosted-VM count among those under
capacity — "under capacity" being hosted count strictly below the
effective limit (own per-instance limit if set, else the network-wide
distribution limit) — and returns no hypervisor exactly when every
hypervisor is at or over its effective limit.  The hypothesis rules out
a literal per-instance limit of `0`, which the data model excludes
(per-instance limits are positive) and which Python truthiness would
send to the network-wide fallback. -/
theorem packed_mode_selection_spec (s : CMS)
    (hmode : s.vm_dist_mode = "packed")
    (hpos : ∀ hv ∈ s.HVs, hv.vm_dist_limit ≠ some 0) :
    (∀ h, getNextDefaultHV s = Except.ok (some h) →
      ∃ hv, hv ∈ s.HVs ∧ hv.name = h ∧
        hv.nameToVMs.length < effective_limit s hv ∧
        ∀ hv2 ∈ s.HVs, hv2.nameToVMs.length < effective_limit s hv2 →
          hv2.nameToVMs.length ≤ hv.nameToVMs.length) ∧
    (getNextDefaultHV s = Except.ok none ↔
      ∀ hv ∈ s.HVs, effective_limit s hv ≤ hv.nameToVMs.length) := by
  have hfull : ∀ hv ∈ s.HVs,
      (s.isHVFull hv = true ↔ effective_limit s hv ≤ hv.nameToVMs.length) :=
    fun hv hm => isHVFull_iff s hv (hpos hv hm)
  by_cases hlen : s.HVs.length = 0
  · have hnil : s.HVs = [] := List.length_eq_zero.mp hlen
    have hg : getNextDefaultHV s = Except.ok none := by
      unfold getNextDefaultHV
      rw [if_pos hlen]
    constructor
    · intro h heq
      rw [hg] at heq
      exact absurd heq (by simp)
    · rw [hg]
      simp [hnil]
  · have hg : getNextDefaultHV s = vm_dist_packed s := by
      unfold getNextDefaultHV
      rw [hmode, if_neg hlen]
      rfl
    cases hf : s.HVs.filter (fun hv => !(s.isHVFull hv)) with
    | nil =>
      have hps : vm_dist_packed s = Except.ok none := by
        unfold vm_dist_packed
        rw [hf]
      have hallfull : ∀ hv ∈ s.HVs,
          effective_limit s hv ≤ hv.nameToVMs.length := by
        intro hv hm
        have hnp := (List.filter_eq_nil_iff.mp hf) hv hm
        cases hb : s.isHVFull hv with
        | true => exact (hfull hv hm).mp hb
        | false => exact absurd (by simp [hb]) hnp
      constructor
      · intro h heq
        rw [hg, hps] at heq
        exact absurd heq (by simp)
      · rw [hg, hps]
        exact ⟨fun _ => hallfull, fun _ => rfl⟩
    | cons x xs =>
      have hps : vm_dist_packed s =
          Except.ok (some (maxByNumVMs x xs).name) := by
        unfold vm_dist_packed
        rw [hf]
      have hmem : maxByNumVMs x xs ∈
          s.HVs.filter (fun hv => !(s.isHVFull hv)) := by
        rw [hf]
        rcases maxByNumVMs_mem xs x with h | h
        · rw [h]
          exact List.mem_cons_self x xs
        · exact List.mem_cons_of_mem x h
      have hMmem : maxByNumVMs x xs ∈ s.HVs := (List.mem_filter.mp hmem).1
      have hMfalse : s.isHVFull (maxByNumVMs x xs) = false := by
        have hp := (List.mem_filter.mp hmem).2
        simpa only [Bool.not_eq_true'] using hp
      have hMunder : (maxByNumVMs x xs).nameToVMs.length <
          effective_limit s (maxByNumVMs x xs) := by
        refine not_le.mp ?_
        intro hle
        have ht := (hfull _ hMmem).mpr hle
        rw [ht] at hMfalse
        exact Bool.noConfusion hMfalse
      have hMax : ∀ hv2 ∈ s.HVs,
          hv2.nameToVMs.length < effective_limit s hv2 →
          hv2.nameToVMs.length ≤ (maxByNumVMs x xs).nameToVMs.length := by
        intro hv2 hm2 hlt
        have hnotfull : s.isHVFull hv2 = false := by
          cases hb : s.isHVFull hv2 with
          | true => exact absurd ((hfull hv2 hm2).mp hb) (not_le.mpr hlt)
          | false => rfl
        have h2f : hv2 ∈ s.HVs.filter (fun hv => !(s.isHVFull hv)) :=
          List.mem_filter.mpr ⟨hm2, by simp [hnotfull]⟩
        rw [hf] at h2f
        rcases List.mem_cons.mp h2f with rfl | hmem2
        · exact (maxByNumVMs_ge xs hv2).1
        · exact (maxByNumVMs_ge xs x).2 hv2 hmem2
      constructor
      · intro h heq
        rw [hg, hps] at heq
        simp only [Except.ok.injEq, Option.some.injEq] at heq
        exact ⟨maxByNumVMs x xs, hMmem, heq, hMunder, hMax⟩
      · rw [hg, hps]
        constructor
        · intro heq
          exact absurd heq (by simp)
        · intro hall
          exfalso
          have hx : x ∈ s.HVs.filter (fun hv => !(s.isHVFull hv)) := by
            rw [hf]
            exact List.mem_cons_self x xs
          have hxm := (List.mem_filter.mp hx).1
          have hxp := (List.mem_filter.mp hx).2
          simp only [Bool.not_eq_true'] at hxp
          have ht := (hfull x hxm).mpr (hall x hxm)
          rw [ht] at hxp
          exact Bool.noConfusion hxp

/-- Witness for C3 at a concrete packed-mode state (`h1` hosting one VM,
`h2` empty, network-wide limit 2). -/
theorem packed_mode_selection_spec_witness :
    (∀ hv ∈ sPackedW.HVs, hv.vm_dist_limit ≠ some 0) ∧
    (getNextDefaultHV sPackedW = Except.ok none ↔
      ∀ hv ∈ sPackedW.HVs,
        effective_limit sPackedW hv ≤ hv.nameToVMs.length) :=
  ⟨by decide, (packed_mode_selection_spec sPackedW rfl (by decide)).2⟩

end CMSnetModel
